import Mathlib

/-!
# Verification of the `unqork-audit-logs` fetch/cache core

A shallow embedding, in Lean 4, of the core of the `unqork-audit-logs`
repository (window planner, HTTP client retry policy, decompression chain,
JSON record parser, SQLite-backed cache, fetch orchestrator), together with
theorems settling the specification's claims about it.

Modelling conventions:
* Time instants are `Nat` microseconds since the Unix epoch in UTC
  (Python `datetime` has microsecond resolution).
* Python byte strings are `List Nat` (each element `< 256`).
* External collaborators (the `gzip`/`zipfile` codecs, HTTP transport,
  Pydantic validation) are passed in as explicit function parameters: the
  code under verification only observes their success/failure.
* Fallible Python code is embedded as `Except`/`Option`-returning functions;
  an uncaught Python exception is an `.error` value.
-/

namespace UnqorkAuditLogs

/-! ## Window planner (`fetcher.generate_windows`)

`fetcher.py` iterates `current` from `start`, producing windows
`(current, min (current + 1 hour) end)` while `current < end`, and formats
both boundaries with `strftime("%Y-%m-%dT%H:%M:%S.000Z")`.  We split the
source loop into `generate_windows_times` (the instants the loop iterates
over) followed by a `map` of the timestamp formatter `fmtTimestamp`
(defined below with the orchestrator); the composition is definitionally
the source function.  One hour = 3600000000 microseconds. -/

def hourUs : Nat := 3600000000

def generate_windows_times (start finish : Nat) : List (Nat × Nat) :=
  if _h : start < finish then
    (start, min (start + hourUs) finish) ::
      generate_windows_times (min (start + hourUs) finish) finish
  else
    []
termination_by finish - start
decreasing_by
  have : 0 < hourUs := by decide
  omega

theorem generate_windows_times_pos {start finish : Nat} (h : start < finish) :
    generate_windows_times start finish =
      (start, min (start + hourUs) finish) ::
        generate_windows_times (min (start + hourUs) finish) finish := by
  rw [generate_windows_times]
  simp [h]

theorem generate_windows_times_neg {start finish : Nat} (h : ¬ start < finish) :
    generate_windows_times start finish = [] := by
  rw [generate_windows_times]
  simp [h]

/-- Auxiliary induction for the window-partition property, by strong
induction on the remaining span `finish - start`. -/
theorem generate_windows_times_spec :
    ∀ d start finish, finish - start ≤ d → start < finish →
      (∀ w ∈ generate_windows_times start finish,
          start ≤ w.1 ∧ w.1 < w.2 ∧ w.2 ≤ finish ∧ w.2 - w.1 ≤ hourUs) ∧
      List.Chain' (fun a b : Nat × Nat => a.2 = b.1)
        (generate_windows_times start finish) ∧
      (generate_windows_times start finish).head? =
        some (start, min (start + hourUs) finish) ∧
      (∀ t : Nat, (start ≤ t ∧ t < finish) ↔
        ∃ w ∈ generate_windows_times start finish, w.1 ≤ t ∧ t < w.2) := by
  intro d
  induction d with
  | zero =>
      intro start finish hle hlt
      omega
  | succ n ih =>
      intro start finish hle hlt
      have hhour : 0 < hourUs := by decide
      rw [generate_windows_times_pos hlt]
      set m := min (start + hourUs) finish with hm
      by_cases hmf : m < finish
      · -- more windows follow
        have hrec := ih m finish (by omega) hmf
        obtain ⟨hbnd, hchain, hhead, hcov⟩ := hrec
        refine ⟨?_, ?_, ?_, ?_⟩
        · intro w hw
          rcases List.mem_cons.mp hw with h | h
          · subst h; simp only []; omega
          · have := hbnd w h; omega
        · rw [List.chain'_cons']
          refine ⟨?_, hchain⟩
          intro y hy
          rw [hhead] at hy
          simp only [Option.mem_def, Option.some.injEq] at hy
          subst hy
          rfl
        · rfl
        · intro t
          constructor
          · rintro ⟨h1, h2⟩
            by_cases htm : t < m
            · exact ⟨(start, m), List.mem_cons_self _ _, by simp; omega⟩
            · obtain ⟨w, hw, hwt⟩ := (hcov t).mp ⟨by omega, h2⟩
              exact ⟨w, List.mem_cons_of_mem _ hw, hwt⟩
          · rintro ⟨w, hw, hwt⟩
            rcases List.mem_cons.mp hw with h | h
            · subst h; simp only [] at hwt; omega
            · have := hbnd w h; omega
      · -- last window: m = finish
        have hmfin : m = finish := by omega
        have h0 : generate_windows_times m finish = [] :=
          generate_windows_times_neg (by omega)
        rw [h0]
        refine ⟨?_, ?_, rfl, ?_⟩
        · intro w hw
          rcases List.mem_cons.mp hw with h | h
          · subst h; simp only []; omega
          · simp at h
        · simp
        · intro t
          constructor
          · rintro ⟨h1, h2⟩
            exact ⟨(start, m), List.mem_cons_self _ _, by simp; omega⟩
          · rintro ⟨w, hw, hwt⟩
            rcases List.mem_cons.mp hw with h | h
            · subst h; simp only [] at hwt; omega
            · simp at h

/-- C1: for start < end, `generate_windows` produces an ordered sequence of
contiguous, non-overlapping windows, each at most one hour long, whose
concatenation covers exactly `[start, end)`; for start ≥ end it produces the
empty sequence. -/
theorem generate_windows_partition (start finish : Nat) :
    (finish ≤ start → generate_windows_times start finish = []) ∧
    (start < finish →
      (∀ w ∈ generate_windows_times start finish,
          w.1 < w.2 ∧ w.2 - w.1 ≤ hourUs) ∧
      List.Chain' (fun a b : Nat × Nat => a.2 = b.1)
        (generate_windows_times start finish) ∧
      List.Pairwise (fun a b : Nat × Nat => a.2 ≤ b.1)
        (generate_windows_times start finish) ∧
      (∀ t : Nat, (start ≤ t ∧ t < finish) ↔
        ∃ w ∈ generate_windows_times start finish, w.1 ≤ t ∧ t < w.2)) := by
  constructor
  · intro h
    exact generate_windows_times_neg (by omega)
  · intro hlt
    -- pairwise disjointness follows from the per-suffix bounds; we prove it by
    -- re-running the same strong induction
    have main :
        ∀ d start finish, finish - start ≤ d → start < finish →
          List.Pairwise (fun a b : Nat × Nat => a.2 ≤ b.1)
            (generate_windows_times start finish) := by
      intro d
      induction d with
      | zero => intro s f hle hlt'; omega
      | succ n ih =>
          intro s f hle hlt'
          have hhour : 0 < hourUs := by decide
          rw [generate_windows_times_pos hlt']
          set m := min (s + hourUs) f with hm
          by_cases hmf : m < f
          · have hrec := generate_windows_times_spec (f - m) m f le_rfl hmf
            refine List.pairwise_cons.mpr ⟨?_, ih m f (by omega) hmf⟩
            intro b hb
            have := hrec.1 b hb
            omega
          · have h0 : generate_windows_times m f = [] :=
              generate_windows_times_neg (by omega)
            rw [h0]
            simp
    have hspec := generate_windows_times_spec (finish - start) start finish
      le_rfl hlt
    refine ⟨?_, hspec.2.1, main (finish - start) start finish le_rfl hlt, hspec.2.2.2⟩
    intro w hw
    have := hspec.1 w hw
    omega

/-- Witness for C1 at a concrete range: `[0, 1.5 hours)` yields two windows,
the second of which is shorter; `[5, 5)` and reversed ranges yield `[]`. -/
theorem generate_windows_partition_witness :
    generate_windows_times 7 7 = [] ∧
    ((∀ w ∈ generate_windows_times 0 5400000000,
        w.1 < w.2 ∧ w.2 - w.1 ≤ hourUs) ∧
      List.Chain' (fun a b : Nat × Nat => a.2 = b.1)
        (generate_windows_times 0 5400000000) ∧
      List.Pairwise (fun a b : Nat × Nat => a.2 ≤ b.1)
        (generate_windows_times 0 5400000000) ∧
      (∀ t : Nat, (0 ≤ t ∧ t < 5400000000) ↔
        ∃ w ∈ generate_windows_times 0 5400000000, w.1 ≤ t ∧ t < w.2)) :=
  ⟨(generate_windows_partition 7 7).1 (by decide),
   (generate_windows_partition 0 5400000000).2 (by decide)⟩

/-! ## HTTP client retry policy (`client.AuditLogClient`)

`client.py` performs one `GET`; on an `HTTPStatusError` with code 401 it
invalidates the cached token, refreshes, and retries the same request once;
any `HTTPStatusError` on the retry becomes a terminal `APIError`.  The HTTP
transport is external: we model it as a function from the call index (0 for
the first attempt, 1 for the retry) to a response, and return alongside the
result the number of `GET` requests issued and of `invalidate()` calls. -/

inductive HttpResp (α : Type) where
  | ok (body : α)
  | status (code : Nat) (text : String)
  | netError (msg : String)

structure CallStats where
  requests : Nat
  invalidations : Nat
deriving DecidableEq, Repr

def fetch_log_locations (transport : Nat → HttpResp (List String)) :
    Except String (List String) × CallStats :=
  match transport 0 with
  | .ok body => (.ok body, ⟨1, 0⟩)
  | .netError m => (.error ("API request failed: " ++ m), ⟨1, 0⟩)
  | .status code text =>
      if code = 401 then
        match transport 1 with
        | .ok body => (.ok body, ⟨2, 1⟩)
        | .status c2 t2 =>
            (.error ("API request failed after token refresh (HTTP " ++
              toString c2 ++ "): " ++ t2), ⟨2, 1⟩)
        | .netError m => (.error ("httpx.RequestError: " ++ m), ⟨2, 1⟩)
      else
        (.error ("API request failed (HTTP " ++ toString code ++ "): " ++ text),
          ⟨1, 0⟩)

def download_log_file (transport : Nat → HttpResp (List Nat)) :
    Except String (List Nat) × CallStats :=
  match transport 0 with
  | .ok body => (.ok body, ⟨1, 0⟩)
  | .netError m => (.error ("File download failed: " ++ m), ⟨1, 0⟩)
  | .status code _text =>
      if code = 401 then
        match transport 1 with
        | .ok body => (.ok body, ⟨2, 1⟩)
        | .status c2 _t2 =>
            (.error ("File download failed after token refresh (HTTP " ++
              toString c2 ++ ")"), ⟨2, 1⟩)
        | .netError m => (.error ("httpx.RequestError: " ++ m), ⟨2, 1⟩)
      else
        (.error ("File download failed (HTTP " ++ toString code ++ ")"), ⟨1, 0⟩)

/-- C6: on a 401, both the location-resolution call and the file download
invalidate the token exactly once and retry the single request exactly once
(two requests total); a 401 on the retry is a terminal API error, with no
further retries; a successful retry returns the body. -/
theorem retry_once_on_401 :
    (∀ (transport : Nat → HttpResp (List String)) (text : String),
      transport 0 = .status 401 text →
        (fetch_log_locations transport).2 = ⟨2, 1⟩ ∧
        (∀ t2, transport 1 = .status 401 t2 →
          ∃ msg, (fetch_log_locations transport).1 = .error msg) ∧
        (∀ body, transport 1 = .ok body →
          (fetch_log_locations transport).1 = .ok body)) ∧
    (∀ (transport : Nat → HttpResp (List Nat)) (text : String),
      transport 0 = .status 401 text →
        (download_log_file transport).2 = ⟨2, 1⟩ ∧
        (∀ t2, transport 1 = .status 401 t2 →
          ∃ msg, (download_log_file transport).1 = .error msg) ∧
        (∀ body, transport 1 = .ok body →
          (download_log_file transport).1 = .ok body)) := by
  constructor
  · intro transport text h0
    refine ⟨?_, ?_, ?_⟩
    · simp [fetch_log_locations, h0]
      cases h1 : transport 1 <;> simp
    · intro t2 h1
      simp [fetch_log_locations, h0, h1]
    · intro body h1
      simp [fetch_log_locations, h0, h1]
  · intro transport text h0
    refine ⟨?_, ?_, ?_⟩
    · simp [download_log_file, h0]
      cases h1 : transport 1 <;> simp
    · intro t2 h1
      simp [download_log_file, h0, h1]
    · intro body h1
      simp [download_log_file, h0, h1]

/-- Witness for C6: a transport answering 401 twice gives two requests, one
invalidation and a terminal error on both operations. -/
theorem retry_once_on_401_witness :
    ((fetch_log_locations (fun _ => .status 401 "no")).2 = ⟨2, 1⟩ ∧
      ∃ msg, (fetch_log_locations (fun _ => .status 401 "no")).1 =
        .error msg) ∧
    ((download_log_file (fun _ => .status 401 "no")).2 = ⟨2, 1⟩ ∧
      ∃ msg, (download_log_file (fun _ => .status 401 "no")).1 =
        .error msg) := by
  have h := retry_once_on_401
  exact ⟨⟨(h.1 (fun _ => .status 401 "no") "no" rfl).1,
          (h.1 (fun _ => .status 401 "no") "no" rfl).2.1 "no" rfl⟩,
         ⟨(h.2 (fun _ => .status 401 "no") "no" rfl).1,
          (h.2 (fun _ => .status 401 "no") "no" rfl).2.1 "no" rfl⟩⟩

/-! ## Decompression (`parser.decompress`)

`parser.py` tries `gzip.decompress(data).decode("utf-8")`, catching only
`BadGzipFile`/`OSError`; then `zipfile.ZipFile`, reading every entry in
archive order UTF-8-decoded and newline-joined, catching only `BadZipFile`;
then a plain UTF-8 decode accepted only when the stripped text begins with
`{` or `[`; otherwise it raises `ValueError`.  The three codecs are external
(stdlib): each is a parameter whose result distinguishes success, the
exception the source catches, and any other exception (which the source
lets escape). -/

inductive GzipResult where
  | ok (text : String)
  | fail
  | raised (msg : String)

inductive ZipResult where
  | ok (parts : List String)
  | fail
  | raised (msg : String)

inductive PyError where
  | valueError (msg : String)
  | uncaught (msg : String)
deriving DecidableEq, Repr

def isPyWs (c : Char) : Bool :=
  c.toNat = 32 || c.toNat = 9 || c.toNat = 10 || c.toNat = 13 ||
    c.toNat = 11 || c.toNat = 12

/-- Python `str.strip()` (ASCII whitespace; the payloads at issue are
ASCII-framed JSON). -/
def pyStrip (s : String) : String :=
  ⟨((s.data.dropWhile isPyWs).reverse.dropWhile isPyWs).reverse⟩

/-- The source's raw-text sanity check:
`text.strip() and text.strip()[0] in ("{", "[")`. -/
def looksLikeJson (text : String) : Bool :=
  match (pyStrip text).data with
  | [] => false
  | c :: _ => c = '{' || c = '['

def decompressFailureMsg : String :=
  "Unable to decompress log file data (tried gzip, zip, raw text)"

def decompress (gz : List Nat → GzipResult) (zp : List Nat → ZipResult)
    (utf8 : List Nat → Option String) (data : List Nat) :
    Except PyError String :=
  match gz data with
  | .ok text => .ok text
  | .raised m => .error (.uncaught m)
  | .fail =>
      match zp data with
      | .ok parts => .ok (String.intercalate "\n" parts)
      | .raised m => .error (.uncaught m)
      | .fail =>
          match utf8 data with
          | some text =>
              if looksLikeJson text then .ok text
              else .error (.valueError decompressFailureMsg)
          | none => .error (.valueError decompressFailureMsg)

/-- C8: `decompress` tries gzip, then zip (entries newline-joined in archive
order), then raw UTF-8 text accepted only when the trimmed content begins
with `{` or `[`; on any input where all three attempts fail it returns a
decompression error instead of a value. -/
theorem decompress_fallback_chain (gz : List Nat → GzipResult)
    (zp : List Nat → ZipResult) (utf8 : List Nat → Option String)
    (data : List Nat) :
    (∀ t, gz data = .ok t →
      decompress gz zp utf8 data = .ok t) ∧
    (gz data = .fail → ∀ ps, zp data = .ok ps →
      decompress gz zp utf8 data = .ok (String.intercalate "\n" ps)) ∧
    (gz data = .fail → zp data = .fail → ∀ t, utf8 data = some t →
      (looksLikeJson t = true → decompress gz zp utf8 data = .ok t) ∧
      (looksLikeJson t = false →
        decompress gz zp utf8 data = .error (.valueError decompressFailureMsg))) ∧
    ((∀ t, gz data ≠ .ok t) → (∀ ps, zp data ≠ .ok ps) →
      (∀ t, utf8 data = some t → looksLikeJson t = false) →
      ∃ e, decompress gz zp utf8 data = .error e) := by
  refine ⟨?_, ?_, ?_, ?_⟩
  · intro t h
    simp [decompress, h]
  · intro hgz ps hzp
    simp [decompress, hgz, hzp]
  · intro hgz hzp t hu
    constructor <;> intro hl <;> simp [decompress, hgz, hzp, hu, hl]
  · intro hgz hzp hu
    unfold decompress
    cases hg : gz data with
    | ok t => exact absurd hg (hgz t)
    | raised m => exact ⟨.uncaught m, rfl⟩
    | fail =>
        cases hz : zp data with
        | ok ps => exact absurd hz (hzp ps)
        | raised m => exact ⟨.uncaught m, rfl⟩
        | fail =>
            cases hu8 : utf8 data with
            | none => exact ⟨.valueError decompressFailureMsg, rfl⟩
            | some t =>
                have := hu t hu8
                simp [this]

/-- Witness for C8: with all three codecs failing on a concrete byte string
the operation errors out; with gzip succeeding it returns the gzip text. -/
theorem decompress_fallback_chain_witness :
    (∃ e, decompress (fun _ => .fail) (fun _ => .fail) (fun _ => none)
      [31, 139, 7] = .error e) ∧
    decompress (fun _ => .ok "{}") (fun _ => .fail) (fun _ => none)
      [31, 139, 7] = .ok "{}" :=
  ⟨(decompress_fallback_chain _ _ _ [31, 139, 7]).2.2.2
      (fun _t h => GzipResult.noConfusion h)
      (fun _ps h => ZipResult.noConfusion h)
      (fun _t h => Option.noConfusion h),
   (decompress_fallback_chain _ _ _ [31, 139, 7]).1 "{}" rfl⟩

/-! ## JSON model (Python `json` module)

The parser and cache manipulate Python values produced by `json.loads` and
re-serialized by `json.dumps(obj, separators=(",", ":"))` (compact, key
order as encountered, `ensure_ascii` default).  We model Python JSON data
as `Json` (numbers restricted to integers: float payloads are outside this
model), `json.dumps` as `dumps`, and `json.loads` as `jsonLoads`.
Python `dict` semantics are preserved: insertion order, and a duplicate key
keeps its first position with the last value. -/

inductive Json where
  | null
  | bool (b : Bool)
  | num (n : Int)
  | str (s : String)
  | arr (elems : List Json)
  | obj (fields : List (String × Json))
deriving Repr

/-! ### Serializer: `json.dumps(obj, separators=(",", ":"))` -/

def digitChar (n : Nat) : Char := Char.ofNat (48 + n)

/-- Decimal digits of a natural number, most significant first
(Python `repr` of a non-negative `int`). -/
def natChars (n : Nat) : List Char :=
  if _h : n < 10 then [digitChar n]
  else natChars (n / 10) ++ [digitChar (n % 10)]
termination_by n
decreasing_by omega

def intChars (n : Int) : List Char :=
  if n < 0 then '-' :: natChars n.natAbs else natChars n.natAbs

/-- Lowercase hex digit, as emitted by Python's `json` `\uXXXX` escapes. -/
def hexDigitChar (n : Nat) : Char :=
  if n < 10 then Char.ofNat (48 + n) else Char.ofNat (87 + n)

def hex4 (n : Nat) : List Char :=
  [hexDigitChar (n / 4096 % 16), hexDigitChar (n / 256 % 16),
   hexDigitChar (n / 16 % 16), hexDigitChar (n % 16)]

/-- Escaping of one character inside a JSON string literal with
`ensure_ascii=True` (the `json.dumps` default): short escapes for `"`,
`\\` and the common control characters, `\uXXXX` for other control and all
non-ASCII characters, surrogate pairs beyond the BMP. -/
def escapeChar (c : Char) : List Char :=
  if c = '"' then ['\\', '"']
  else if c = '\\' then ['\\', '\\']
  else if c.toNat = 10 then ['\\', 'n']
  else if c.toNat = 13 then ['\\', 'r']
  else if c.toNat = 9 then ['\\', 't']
  else if c.toNat = 8 then ['\\', 'b']
  else if c.toNat = 12 then ['\\', 'f']
  else if c.toNat < 32 then '\\' :: 'u' :: hex4 c.toNat
  else if c.toNat < 127 then [c]
  else if c.toNat < 65536 then '\\' :: 'u' :: hex4 c.toNat
  else
    ('\\' :: 'u' :: hex4 (55296 + (c.toNat - 65536) / 1024)) ++
      ('\\' :: 'u' :: hex4 (56320 + (c.toNat - 65536) % 1024))

def serializeStringChars (s : String) : List Char :=
  '"' :: (s.data.map escapeChar).flatten ++ ['"']

mutual
def serializeJson : Json → List Char
  | .null => 'n' :: ['u', 'l', 'l']
  | .bool true => 't' :: ['r', 'u', 'e']
  | .bool false => 'f' :: ['a', 'l', 's', 'e']
  | .num n => intChars n
  | .str s => serializeStringChars s
  | .arr [] => ['[', ']']
  | .arr (x :: xs) => '[' :: (serializeElems x xs ++ [']'])
  | .obj [] => ['{', '}']
  | .obj (m :: ms) => '{' :: (serializeMembers m ms ++ ['}'])
termination_by j => sizeOf j
decreasing_by all_goals simp_wf
def serializeElems : Json → List Json → List Char
  | x, [] => serializeJson x
  | x, y :: ys => serializeJson x ++ ',' :: serializeElems y ys
termination_by x xs => 1 + sizeOf x + sizeOf xs
decreasing_by all_goals (simp_wf <;> omega)
def serializeMembers : String × Json → List (String × Json) → List Char
  | (k, v), [] => serializeStringChars k ++ ':' :: serializeJson v
  | (k, v), m :: ms =>
      serializeStringChars k ++ ':' :: serializeJson v ++
        ',' :: serializeMembers m ms
termination_by m ms => 1 + sizeOf m + sizeOf ms
decreasing_by all_goals (simp_wf <;> omega)
end

def dumps (j : Json) : String := ⟨serializeJson j⟩

/-! ### Parser: `json.loads` -/

def isJsonWs (c : Char) : Bool :=
  c.toNat = 32 || c.toNat = 9 || c.toNat = 10 || c.toNat = 13

def skipWs (l : List Char) : List Char := l.dropWhile isJsonWs

def hexVal (c : Char) : Option Nat :=
  if 48 ≤ c.toNat ∧ c.toNat ≤ 57 then some (c.toNat - 48)
  else if 97 ≤ c.toNat ∧ c.toNat ≤ 102 then some (c.toNat - 87)
  else if 65 ≤ c.toNat ∧ c.toNat ≤ 70 then some (c.toNat - 55)
  else none

/-- Four hex digits of a `\uXXXX` escape: the code unit and the remaining
input. -/
def decodeU (l : List Char) : Option (Nat × List Char) :=
  match l with
  | h1 :: h2 :: h3 :: h4 :: r =>
    match hexVal h1, hexVal h2, hexVal h3, hexVal h4 with
    | some a, some b, some c, some d => some (4096 * a + 256 * b + 16 * c + d, r)
    | _, _, _, _ => none
  | _ => none

theorem decodeU_length {l r : List Char} {n : Nat}
    (h : decodeU l = some (n, r)) : r.length + 4 = l.length := by
  unfold decodeU at h
  split at h
  · split at h
    · rename_i heq _ _ _ _
      injection h with h
      rw [Prod.mk.injEq] at h
      obtain ⟨-, h2⟩ := h
      subst h2
      simp
    · exact absurd h (by simp)
  · exact absurd h (by simp)

/-- Decode one backslash escape (the backslash itself already consumed):
the decoded character and the number of input characters consumed.
Surrogate pairs are recombined; a lone surrogate (which Python would turn
into an unpaired-surrogate `str`, unrepresentable as Lean characters)
fails. -/
def escStep (rest : List Char) : Option (Char × Nat) :=
  match rest with
  | [] => none
  | e :: r =>
    if e = '"' then some ('"', 1)
    else if e = '\\' then some ('\\', 1)
    else if e = '/' then some ('/', 1)
    else if e = 'n' then some (Char.ofNat 10, 1)
    else if e = 'r' then some (Char.ofNat 13, 1)
    else if e = 't' then some (Char.ofNat 9, 1)
    else if e = 'b' then some (Char.ofNat 8, 1)
    else if e = 'f' then some (Char.ofNat 12, 1)
    else if e = 'u' then
      match decodeU r with
      | some (n, r2) =>
        if 55296 ≤ n ∧ n ≤ 56319 then
          match r2 with
          | e2 :: u2 :: r3 =>
            if e2 = '\\' ∧ u2 = 'u' then
              match decodeU r3 with
              | some (m, _r4) =>
                if 56320 ≤ m ∧ m ≤ 57343 then
                  some (Char.ofNat (65536 + (n - 55296) * 1024 + (m - 56320)), 11)
                else none
              | none => none
            else none
          | _ => none
        else if 56320 ≤ n ∧ n ≤ 57343 then none
        else some (Char.ofNat n, 5)
      | none => none
    else none

/-- Body of a JSON string literal (opening quote already consumed): returns
the decoded characters and the input after the closing quote. -/
def parseStringBody (l : List Char) : Option (List Char × List Char) :=
  match l with
  | [] => none
  | c :: rest =>
    if c = '"' then some ([], rest)
    else if c = '\\' then
      match escStep rest with
      | some (d, k) =>
          (parseStringBody (rest.drop k)).map (fun p => (d :: p.1, p.2))
      | none => none
    else if c.toNat < 32 then none
    else (parseStringBody rest).map (fun p => (c :: p.1, p.2))
termination_by l.length
decreasing_by
  all_goals simp_wf
  all_goals omega

def parseJString (l : List Char) : Option (String × List Char) :=
  (parseStringBody l).map (fun p => (⟨p.1⟩, p.2))

def isDigitChar (c : Char) : Bool := 48 ≤ c.toNat && c.toNat ≤ 57

def digitsToNat (l : List Char) : Nat :=
  l.foldl (fun a c => 10 * a + (c.toNat - 48)) 0

/-- Unsigned part of a JSON number, restricted to the integer grammar
`0|[1-9][0-9]*`; a fractional part or exponent (floats) is outside this
model. -/
def parseNatNumber (l : List Char) : Option (Nat × List Char) :=
  let ds := l.takeWhile isDigitChar
  let rest := l.dropWhile isDigitChar
  if ds.isEmpty then none
  else if 1 < ds.length ∧ ds.head? = some '0' then none
  else
    match rest with
    | '.' :: _ => none
    | 'e' :: _ => none
    | 'E' :: _ => none
    | _ => some (digitsToNat ds, rest)

def parseNumber (l : List Char) : Option (Json × List Char) :=
  match l with
  | '-' :: r => (parseNatNumber r).map (fun p => (Json.num (-(p.1 : Int)), p.2))
  | _ => (parseNatNumber l).map (fun p => (Json.num (p.1 : Int), p.2))

/-- Python `dict` update while building an object: a fresh key is appended,
an existing key keeps its position and takes the new value. -/
def dictInsert (fs : List (String × Json)) (k : String) (v : Json) :
    List (String × Json) :=
  if fs.any (fun p => p.1 == k) then
    fs.map (fun p => if p.1 == k then (k, v) else p)
  else fs ++ [(k, v)]

mutual
def parseValue (fuel : Nat) (l : List Char) : Option (Json × List Char) :=
  match fuel with
  | 0 => none
  | fuel + 1 =>
    match skipWs l with
    | [] => none
    | c :: rest =>
      if c = 'n' then
        match rest with
        | 'u' :: 'l' :: 'l' :: r => some (.null, r)
        | _ => none
      else if c = 't' then
        match rest with
        | 'r' :: 'u' :: 'e' :: r => some (.bool true, r)
        | _ => none
      else if c = 'f' then
        match rest with
        | 'a' :: 'l' :: 's' :: 'e' :: r => some (.bool false, r)
        | _ => none
      else if c = '"' then
        (parseJString rest).map (fun p => (.str p.1, p.2))
      else if c = '[' then
        match skipWs rest with
        | ']' :: r => some (.arr [], r)
        | _ => parseElems fuel rest []
      else if c = '{' then
        match skipWs rest with
        | '}' :: r => some (.obj [], r)
        | _ => parseMembers fuel rest []
      else parseNumber (c :: rest)
def parseElems (fuel : Nat) (l : List Char) (acc : List Json) :
    Option (Json × List Char) :=
  match fuel with
  | 0 => none
  | fuel + 1 =>
    match parseValue fuel l with
    | none => none
    | some (v, rest) =>
      match skipWs rest with
      | ',' :: r => parseElems fuel r (acc ++ [v])
      | ']' :: r => some (.arr (acc ++ [v]), r)
      | _ => none
def parseMembers (fuel : Nat) (l : List Char)
    (acc : List (String × Json)) : Option (Json × List Char) :=
  match fuel with
  | 0 => none
  | fuel + 1 =>
    match skipWs l with
    | '"' :: rest =>
      match parseJString rest with
      | none => none
      | some (k, rest1) =>
        match skipWs rest1 with
        | ':' :: rest2 =>
          match parseValue fuel rest2 with
          | none => none
          | some (v, rest3) =>
            match skipWs rest3 with
            | ',' :: r => parseMembers fuel r (dictInsert acc k v)
            | '}' :: r => some (.obj (dictInsert acc k v), r)
            | _ => none
        | _ => none
    | _ => none
end

/-- `json.loads`: parse one document, allowing surrounding whitespace,
rejecting trailing data. -/
def jsonLoads (s : String) : Option Json :=
  match parseValue (s.length + 1) s.data with
  | some (j, rest) => if skipWs rest = [] then some j else none
  | none => none

/-! ### Serializer/parser round trip: auxiliary lemmas -/

theorem toNat_ofNat_of_valid {n : Nat} (h : n.isValidChar) :
    (Char.ofNat n).toNat = n := by
  rw [Char.ofNat, dif_pos h]
  rfl

theorem char_toNat_valid (c : Char) :
    c.toNat < 55296 ∨ (57343 < c.toNat ∧ c.toNat < 1114112) := by
  have := c.valid
  unfold UInt32.isValidChar Nat.isValidChar at this
  exact this

theorem char_eq_of_toNat {c : Char} {n : Nat} (h : c.toNat = n) :
    Char.ofNat n = c := by
  subst h
  exact Char.ofNat_toNat c

theorem digitChar_toNat {d : Nat} (h : d < 10) : (digitChar d).toNat = 48 + d :=
  toNat_ofNat_of_valid (Or.inl (by omega))

theorem isDigitChar_digitChar {d : Nat} (h : d < 10) :
    isDigitChar (digitChar d) = true := by
  simp [isDigitChar, digitChar_toNat h]
  omega

theorem natChars_all_digits (n : Nat) :
    ∀ c ∈ natChars n, isDigitChar c = true := by
  induction n using Nat.strong_induction_on with
  | _ n ih =>
      rw [natChars]
      split
      · intro c hc
        simp only [List.mem_singleton] at hc
        subst hc
        exact isDigitChar_digitChar (by omega)
      · intro c hc
        rcases List.mem_append.mp hc with h | h
        · exact ih (n / 10) (by omega) c h
        · simp only [List.mem_singleton] at h
          subst h
          exact isDigitChar_digitChar (by omega)

theorem digitsToNat_append (l : List Char) (c : Char) :
    digitsToNat (l ++ [c]) = 10 * digitsToNat l + (c.toNat - 48) := by
  simp [digitsToNat, List.foldl_append]

theorem digitsToNat_natChars (n : Nat) : digitsToNat (natChars n) = n := by
  induction n using Nat.strong_induction_on with
  | _ n ih =>
      rw [natChars]
      split
      · rename_i h
        simp [digitsToNat, digitChar_toNat h]
      · rename_i h
        rw [digitsToNat_append, ih (n / 10) (by omega),
          digitChar_toNat (by omega : n % 10 < 10)]
        omega

theorem natChars_head : ∀ n : Nat, ∃ c t, natChars n = c :: t ∧
    isDigitChar c = true ∧ (1 ≤ n → c ≠ '0') ∧ (n = 0 → t = []) := by
  intro n
  induction n using Nat.strong_induction_on with
  | _ n ih =>
      rw [natChars]
      split
      · rename_i h
        refine ⟨digitChar n, [], rfl, isDigitChar_digitChar h, ?_, fun _ => rfl⟩
        intro h1 hc
        have := digitChar_toNat h
        rw [hc] at this
        have h0 : ('0' : Char).toNat = 48 := rfl
        rw [h0] at this
        omega
      · rename_i h
        obtain ⟨c, t, heq, hdig, hz, _⟩ := ih (n / 10) (by omega)
        refine ⟨c, t ++ [digitChar (n % 10)], by rw [heq]; rfl, hdig, ?_, ?_⟩
        · intro _
          exact hz (by omega)
        · intro h0
          omega

theorem takeWhile_digits_natChars (a : Nat) (rest : List Char)
    (hrest : ∀ c, rest.head? = some c → isDigitChar c = false) :
    (natChars a ++ rest).takeWhile isDigitChar = natChars a ∧
    (natChars a ++ rest).dropWhile isDigitChar = rest := by
  have hall := natChars_all_digits a
  rw [List.takeWhile_append_of_pos hall, List.dropWhile_append_of_pos hall]
  cases rest with
  | nil => simp
  | cons c t =>
      have := hrest c rfl
      simp [List.takeWhile, List.dropWhile, this]

/-- The characters that may legally follow a serialized number inside a
JSON document (so that maximal-munch number scanning stops exactly at the
number's end). -/
def numBoundaryOk : List Char → Bool
  | [] => true
  | c :: _ => !isDigitChar c && !(c == '.') && !(c == 'e') && !(c == 'E')

theorem parseNatNumber_natChars (a : Nat) (rest : List Char)
    (hrest : numBoundaryOk rest = true) :
    parseNatNumber (natChars a ++ rest) = some (a, rest) := by
  have hlz : ¬ (1 < (natChars a).length ∧ (natChars a).head? = some '0') := by
    obtain ⟨c, t, hnc, _, hz, ht0⟩ := natChars_head a
    rintro ⟨hlen, hhead⟩
    by_cases ha : a = 0
    · subst ha
      rw [hnc, ht0 rfl] at hlen
      simp at hlen
    · rw [hnc] at hhead
      simp only [List.head?, Option.some.injEq] at hhead
      exact hz (by omega) hhead
  have hemp : (natChars a).isEmpty = false := by
    obtain ⟨c, t, hnc, _, _, _⟩ := natChars_head a
    rw [hnc]; rfl
  cases rest with
  | nil =>
      have hbound : ∀ c, ([] : List Char).head? = some c → isDigitChar c = false := by
        intro c hc; simp at hc
      obtain ⟨htake, hdrop⟩ := takeWhile_digits_natChars a [] hbound
      unfold parseNatNumber
      rw [htake, hdrop, if_neg (by simp [hemp]), if_neg hlz, digitsToNat_natChars]
  | cons c0 t0 =>
      simp only [numBoundaryOk, Bool.and_eq_true, Bool.not_eq_true',
        beq_eq_false_iff_ne, ne_eq] at hrest
      obtain ⟨⟨⟨hd, h1⟩, h2⟩, h3⟩ := hrest
      have hbound : ∀ c, (c0 :: t0).head? = some c → isDigitChar c = false := by
        intro c hc
        simp only [List.head?, Option.some.injEq] at hc
        subst hc
        exact hd
      obtain ⟨htake, hdrop⟩ := takeWhile_digits_natChars a (c0 :: t0) hbound
      unfold parseNatNumber
      rw [htake, hdrop, if_neg (by simp [hemp]), if_neg hlz]
      rw [digitsToNat_natChars]
      split
      · rename_i heq
        rw [List.cons.injEq] at heq
        exact absurd heq.1 h1
      · rename_i heq
        rw [List.cons.injEq] at heq
        exact absurd heq.1 h2
      · rename_i heq
        rw [List.cons.injEq] at heq
        exact absurd heq.1 h3
      · rfl

theorem parseNumber_intChars (n : Int) (rest : List Char)
    (hrest : numBoundaryOk rest = true) :
    parseNumber (intChars n ++ rest) = some (.num n, rest) := by
  unfold intChars
  by_cases hneg : n < 0
  · rw [if_pos hneg]
    show parseNumber ('-' :: (natChars n.natAbs ++ rest)) = _
    have hred : parseNumber ('-' :: (natChars n.natAbs ++ rest)) =
        (parseNatNumber (natChars n.natAbs ++ rest)).map
          (fun p => (Json.num (-(p.1 : Int)), p.2)) := rfl
    rw [hred, parseNatNumber_natChars n.natAbs rest hrest]
    have hval : (-(n.natAbs : Int)) = n := by omega
    simp only [Option.map, hval]
  · rw [if_neg hneg]
    obtain ⟨c, t, hnc, hdig, _, _⟩ := natChars_head n.natAbs
    unfold parseNumber
    have hcne : c ≠ '-' := by
      intro h
      rw [h] at hdig
      have : isDigitChar '-' = false := rfl
      rw [this] at hdig
      cases hdig
    have hshape : natChars n.natAbs ++ rest = c :: (t ++ rest) := by
      rw [hnc]; rfl
    rw [hshape]
    split
    · rename_i heq
      rw [List.cons.injEq] at heq
      exact absurd heq.1 hcne
    · rw [← hshape, parseNatNumber_natChars n.natAbs rest hrest]
      have hval : ((n.natAbs : Int)) = n := by omega
      simp only [Option.map, hval]

theorem hexVal_hexDigitChar {d : Nat} (h : d < 16) :
    hexVal (hexDigitChar d) = some d := by
  interval_cases d <;> decide

/-- Evaluation of `decodeU` on four serializer-produced hex digits. -/
theorem decodeU_hex4 (n : Nat) (t : List Char) (hn : n < 65536) :
    decodeU (hex4 n ++ t) = some (n, t) := by
  have e1 := hexVal_hexDigitChar (show n / 4096 % 16 < 16 by omega)
  have e2 := hexVal_hexDigitChar (show n / 256 % 16 < 16 by omega)
  have e3 := hexVal_hexDigitChar (show n / 16 % 16 < 16 by omega)
  have e4 := hexVal_hexDigitChar (show n % 16 < 16 by omega)
  have harith : 4096 * (n / 4096 % 16) + 256 * (n / 256 % 16) +
      16 * (n / 16 % 16) + n % 16 = n := by omega
  simp only [hex4, List.cons_append, List.nil_append, decodeU, e1, e2, e3, e4,
    harith]

theorem psb_nil : parseStringBody [] = none := by
  rw [parseStringBody]

theorem psb_quote (rest : List Char) :
    parseStringBody ('"' :: rest) = some ([], rest) := by
  rw [parseStringBody]
  rfl

theorem psb_esc (rest : List Char) {d : Char} {k : Nat}
    (h : escStep rest = some (d, k)) :
    parseStringBody ('\\' :: rest) =
      (parseStringBody (rest.drop k)).map (fun p => (d :: p.1, p.2)) := by
  rw [parseStringBody.eq_def]
  dsimp only
  rw [if_neg (by decide), if_pos rfl, h]

theorem psb_literal (c : Char) (tail : List Char)
    (res : List Char × List Char)
    (h1 : ¬ c = '"') (h2 : ¬ c = '\\') (h8 : ¬ c.toNat < 32)
    (h : parseStringBody tail = some res) :
    parseStringBody (c :: tail) = some (c :: res.1, res.2) := by
  rw [parseStringBody.eq_def]
  dsimp only
  rw [if_neg h1, if_neg h2, if_neg h8, h]
  rfl

theorem escStep_u_bmp (n : Nat) (tail : List Char) (hn : n < 65536)
    (hns1 : ¬ (55296 ≤ n ∧ n ≤ 56319)) (hns2 : ¬ (56320 ≤ n ∧ n ≤ 57343)) :
    escStep ('u' :: (hex4 n ++ tail)) = some (Char.ofNat n, 5) := by
  have hdec := decodeU_hex4 n tail hn
  rw [escStep.eq_def]
  dsimp only
  rw [if_neg (by decide), if_neg (by decide), if_neg (by decide),
    if_neg (by decide), if_neg (by decide), if_neg (by decide),
    if_neg (by decide), if_neg (by decide), if_pos rfl, hdec]
  dsimp only
  rw [if_neg hns1, if_neg hns2]

theorem escStep_u_pair (n m : Nat) (tail : List Char)
    (hs1 : 55296 ≤ n ∧ n ≤ 56319) (hs2 : 56320 ≤ m ∧ m ≤ 57343) :
    escStep ('u' :: (hex4 n ++ ('\\' :: 'u' :: (hex4 m ++ tail)))) =
      some (Char.ofNat (65536 + (n - 55296) * 1024 + (m - 56320)), 11) := by
  have hdec1 := decodeU_hex4 n ('\\' :: 'u' :: (hex4 m ++ tail)) (by omega)
  have hdec2 := decodeU_hex4 m tail (by omega)
  rw [escStep.eq_def]
  dsimp only
  rw [if_neg (by decide), if_neg (by decide), if_neg (by decide),
    if_neg (by decide), if_neg (by decide), if_neg (by decide),
    if_neg (by decide), if_neg (by decide), if_pos rfl, hdec1]
  dsimp only
  rw [if_pos hs1]
  rw [if_pos (by decide : ('\\' : Char) = '\\' ∧ ('u' : Char) = 'u'), hdec2]
  dsimp only
  rw [if_pos hs2]

set_option maxRecDepth 4096 in
/-- One escaped character followed by more string-literal input parses back
to that character. -/
theorem parseStringBody_escapeChar (c : Char) (tail : List Char)
    (res : List Char × List Char) (h : parseStringBody tail = some res) :
    parseStringBody (escapeChar c ++ tail) = some (c :: res.1, res.2) := by
  by_cases h1 : c = '"'
  · subst h1
    rw [show escapeChar '"' ++ tail = '\\' :: '"' :: tail from rfl]
    rw [psb_esc ('"' :: tail) rfl,
      show List.drop 1 ('"' :: tail) = tail from rfl, h]
    rfl
  by_cases h2 : c = '\\'
  · subst h2
    rw [show escapeChar '\\' ++ tail = '\\' :: '\\' :: tail from rfl]
    rw [psb_esc ('\\' :: tail) rfl,
      show List.drop 1 ('\\' :: tail) = tail from rfl, h]
    rfl
  by_cases h3 : c.toNat = 10
  · rw [escapeChar, if_neg h1, if_neg h2, if_pos h3]
    rw [show ['\\', 'n'] ++ tail = '\\' :: 'n' :: tail from rfl]
    rw [psb_esc ('n' :: tail) rfl,
      show List.drop 1 ('n' :: tail) = tail from rfl, h]
    rw [char_eq_of_toNat h3]
    rfl
  by_cases h4 : c.toNat = 13
  · rw [escapeChar, if_neg h1, if_neg h2, if_neg (by omega), if_pos h4]
    rw [show ['\\', 'r'] ++ tail = '\\' :: 'r' :: tail from rfl]
    rw [psb_esc ('r' :: tail) rfl,
      show List.drop 1 ('r' :: tail) = tail from rfl, h]
    rw [char_eq_of_toNat h4]
    rfl
  by_cases h5 : c.toNat = 9
  · rw [escapeChar, if_neg h1, if_neg h2, if_neg (by omega), if_neg (by omega),
      if_pos h5]
    rw [show ['\\', 't'] ++ tail = '\\' :: 't' :: tail from rfl]
    rw [psb_esc ('t' :: tail) rfl,
      show List.drop 1 ('t' :: tail) = tail from rfl, h]
    rw [char_eq_of_toNat h5]
    rfl
  by_cases h6 : c.toNat = 8
  · rw [escapeChar, if_neg h1, if_neg h2, if_neg (by omega), if_neg (by omega),
      if_neg (by omega), if_pos h6]
    rw [show ['\\', 'b'] ++ tail = '\\' :: 'b' :: tail from rfl]
    rw [psb_esc ('b' :: tail) rfl,
      show List.drop 1 ('b' :: tail) = tail from rfl, h]
    rw [char_eq_of_toNat h6]
    rfl
  by_cases h7 : c.toNat = 12
  · rw [escapeChar, if_neg h1, if_neg h2, if_neg (by omega), if_neg (by omega),
      if_neg (by omega), if_neg (by omega), if_pos h7]
    rw [show ['\\', 'f'] ++ tail = '\\' :: 'f' :: tail from rfl]
    rw [psb_esc ('f' :: tail) rfl,
      show List.drop 1 ('f' :: tail) = tail from rfl, h]
    rw [char_eq_of_toNat h7]
    rfl
  by_cases h8 : c.toNat < 32
  · -- other control characters: \u00XX
    rw [escapeChar, if_neg h1, if_neg h2, if_neg (by omega), if_neg (by omega),
      if_neg (by omega), if_neg (by omega), if_neg (by omega), if_pos h8]
    rw [show ('\\' :: 'u' :: hex4 c.toNat) ++ tail =
      '\\' :: ('u' :: (hex4 c.toNat ++ tail)) from by simp]
    rw [psb_esc _ (escStep_u_bmp c.toNat tail (by omega) (by omega) (by omega))]
    rw [show List.drop 5 ('u' :: (hex4 c.toNat ++ tail)) = tail from rfl]
    rw [h, char_eq_of_toNat rfl]
    rfl
  by_cases h9 : c.toNat < 127
  · -- printable ASCII: literal
    rw [escapeChar, if_neg h1, if_neg h2, if_neg (by omega), if_neg (by omega),
      if_neg (by omega), if_neg (by omega), if_neg (by omega), if_neg h8,
      if_pos h9]
    rw [show [c] ++ tail = c :: tail from rfl]
    exact psb_literal c tail res h1 h2 h8 h
  by_cases h10 : c.toNat < 65536
  · -- BMP non-ASCII: \uXXXX (never a surrogate, by Char validity)
    rw [escapeChar, if_neg h1, if_neg h2, if_neg (by omega), if_neg (by omega),
      if_neg (by omega), if_neg (by omega), if_neg (by omega), if_neg h8,
      if_neg h9, if_pos h10]
    have hvalid := char_toNat_valid c
    rw [show ('\\' :: 'u' :: hex4 c.toNat) ++ tail =
      '\\' :: ('u' :: (hex4 c.toNat ++ tail)) from by simp]
    rw [psb_esc _ (escStep_u_bmp c.toNat tail (by omega) (by omega) (by omega))]
    rw [show List.drop 5 ('u' :: (hex4 c.toNat ++ tail)) = tail from rfl]
    rw [h, char_eq_of_toNat rfl]
    rfl
  · -- astral plane: surrogate pair
    rw [escapeChar, if_neg h1, if_neg h2, if_neg (by omega), if_neg (by omega),
      if_neg (by omega), if_neg (by omega), if_neg (by omega), if_neg h8,
      if_neg h9, if_neg h10]
    have hvalid := char_toNat_valid c
    set hi := 55296 + (c.toNat - 65536) / 1024 with hhi
    set lo := 56320 + (c.toNat - 65536) % 1024 with hlo
    have hhib : hi ≤ 56319 := by
      have : (c.toNat - 65536) / 1024 < 1024 := by omega
      omega
    have hlob : lo ≤ 57343 := by omega
    have hshape :
        (('\\' :: 'u' :: hex4 hi) ++ ('\\' :: 'u' :: hex4 lo)) ++ tail =
        '\\' :: ('u' :: (hex4 hi ++ ('\\' :: 'u' :: (hex4 lo ++ tail)))) := rfl
    rw [hshape]
    rw [psb_esc _ (escStep_u_pair hi lo tail ⟨by omega, hhib⟩ ⟨by omega, hlob⟩)]
    rw [show List.drop 11
      ('u' :: (hex4 hi ++ ('\\' :: 'u' :: (hex4 lo ++ tail)))) = tail from rfl]
    rw [h]
    have hcomb : 65536 + (hi - 55296) * 1024 + (lo - 56320) = c.toNat := by
      rw [hhi, hlo]
      omega
    rw [hcomb, char_eq_of_toNat rfl]
    rfl

theorem parseStringBody_serialized (cs : List Char) (rest : List Char) :
    parseStringBody ((cs.map escapeChar).flatten ++ '"' :: rest) =
      some (cs, rest) := by
  induction cs with
  | nil => simpa using psb_quote rest
  | cons c cs ih =>
      rw [List.map_cons, List.flatten_cons, List.append_assoc]
      exact parseStringBody_escapeChar c _ (cs, rest) ih

theorem parseJString_serialized (s : String) (rest : List Char) :
    parseJString ((s.data.map escapeChar).flatten ++ '"' :: rest) =
      some (s, rest) := by
  rw [parseJString, parseStringBody_serialized]
  rfl

/-! ### Well-formed values and fuel accounting -/

/-- `Bool`-valued `Nodup` on object keys. -/
def keysNodup : List String → Bool
  | [] => true
  | k :: ks => !(ks.contains k) && keysNodup ks

-- `wellFormed`: a `Json` value as produced by `json.loads` -- every
-- object's keys are distinct (they came from a Python `dict`).
mutual
def wellFormed : Json → Bool
  | .null => true
  | .bool _ => true
  | .num _ => true
  | .str _ => true
  | .arr xs => wellFormedElems xs
  | .obj ms => wellFormedMembers ms && keysNodup (ms.map Prod.fst)
termination_by j => sizeOf j
decreasing_by all_goals simp_wf <;> omega
def wellFormedElems : List Json → Bool
  | [] => true
  | x :: xs => wellFormed x && wellFormedElems xs
termination_by xs => sizeOf xs
decreasing_by all_goals simp_wf <;> omega
def wellFormedMembers : List (String × Json) → Bool
  | [] => true
  | (_, v) :: ms => wellFormed v && wellFormedMembers ms
termination_by ms => sizeOf ms
decreasing_by all_goals simp_wf <;> omega
end

-- `needFuel`: fuel sufficient for `parseValue` to consume the serialized
-- form.
mutual
def needFuel : Json → Nat
  | .null => 1
  | .bool _ => 1
  | .num _ => 1
  | .str _ => 1
  | .arr [] => 1
  | .arr (x :: xs) => 1 + needFuelElems x xs
  | .obj [] => 1
  | .obj (m :: ms) => 1 + needFuelMembers m ms
termination_by j => sizeOf j
decreasing_by all_goals simp_wf <;> omega
def needFuelElems : Json → List Json → Nat
  | x, [] => 1 + needFuel x
  | x, y :: ys => 1 + max (needFuel x) (needFuelElems y ys)
termination_by x xs => 1 + sizeOf x + sizeOf xs
decreasing_by all_goals simp_wf <;> omega
def needFuelMembers : String × Json → List (String × Json) → Nat
  | (_, v), [] => 1 + needFuel v
  | (_, v), n :: ns => 1 + max (needFuel v) (needFuelMembers n ns)
termination_by m ms => 1 + sizeOf m + sizeOf ms
decreasing_by all_goals simp_wf <;> omega
end

/-! ### Parser step lemmas -/

theorem skipWs_cons {c : Char} (t : List Char) (h : isJsonWs c = false) :
    skipWs (c :: t) = c :: t := by
  simp [skipWs, List.dropWhile, h]

theorem skipWs_quote (t : List Char) : skipWs ('"' :: t) = '"' :: t :=
  skipWs_cons t (by decide)

theorem skipWs_colon (t : List Char) : skipWs (':' :: t) = ':' :: t :=
  skipWs_cons t (by decide)

theorem skipWs_comma (t : List Char) : skipWs (',' :: t) = ',' :: t :=
  skipWs_cons t (by decide)

theorem skipWs_rbracket (t : List Char) : skipWs (']' :: t) = ']' :: t :=
  skipWs_cons t (by decide)

theorem skipWs_rbrace (t : List Char) : skipWs ('}' :: t) = '}' :: t :=
  skipWs_cons t (by decide)

theorem pv_null (f : Nat) (r : List Char) :
    parseValue (f + 1) ('n' :: 'u' :: 'l' :: 'l' :: r) = some (.null, r) := by
  rw [parseValue, skipWs_cons _ (by decide)]
  simp

theorem pv_true (f : Nat) (r : List Char) :
    parseValue (f + 1) ('t' :: 'r' :: 'u' :: 'e' :: r) =
      some (.bool true, r) := by
  rw [parseValue, skipWs_cons _ (by decide)]
  simp

theorem pv_false (f : Nat) (r : List Char) :
    parseValue (f + 1) ('f' :: 'a' :: 'l' :: 's' :: 'e' :: r) =
      some (.bool false, r) := by
  rw [parseValue, skipWs_cons _ (by decide)]
  simp

theorem pv_str (f : Nat) (r : List Char) :
    parseValue (f + 1) ('"' :: r) =
      (parseJString r).map (fun p => (Json.str p.1, p.2)) := by
  rw [parseValue, skipWs_cons _ (by decide)]
  simp

theorem pv_arr_nil (f : Nat) (r : List Char) :
    parseValue (f + 1) ('[' :: ']' :: r) = some (.arr [], r) := by
  rw [parseValue, skipWs_cons _ (by decide)]
  simp [skipWs_cons r (show isJsonWs ']' = false from by decide)]

theorem pv_obj_nil (f : Nat) (r : List Char) :
    parseValue (f + 1) ('{' :: '}' :: r) = some (.obj [], r) := by
  rw [parseValue, skipWs_cons _ (by decide)]
  simp [skipWs_cons r (show isJsonWs '}' = false from by decide)]

theorem pv_arr (f : Nat) (r : List Char) {c : Char} {t : List Char}
    (hr : skipWs r = c :: t) (hc : ¬ c = ']') :
    parseValue (f + 1) ('[' :: r) = parseElems f r [] := by
  rw [parseValue, skipWs_cons _ (by decide)]
  dsimp only
  rw [if_neg (by decide), if_neg (by decide), if_neg (by decide),
    if_neg (by decide), if_pos rfl, hr]
  split
  · rename_i heq
    rw [List.cons.injEq] at heq
    exact absurd heq.1 hc
  · rfl

theorem pv_obj (f : Nat) (r : List Char) {c : Char} {t : List Char}
    (hr : skipWs r = c :: t) (hc : ¬ c = '}') :
    parseValue (f + 1) ('{' :: r) = parseMembers f r [] := by
  rw [parseValue, skipWs_cons _ (by decide)]
  dsimp only
  rw [if_neg (by decide), if_neg (by decide), if_neg (by decide),
    if_neg (by decide), if_neg (by decide), if_pos rfl, hr]
  split
  · rename_i heq
    rw [List.cons.injEq] at heq
    exact absurd heq.1 hc
  · rfl

theorem pv_number (f : Nat) {c : Char} (r : List Char)
    (hws : isJsonWs c = false)
    (h1 : ¬ c = 'n') (h2 : ¬ c = 't') (h3 : ¬ c = 'f') (h4 : ¬ c = '"')
    (h5 : ¬ c = '[') (h6 : ¬ c = '{') :
    parseValue (f + 1) (c :: r) = parseNumber (c :: r) := by
  rw [parseValue, skipWs_cons _ hws]
  dsimp only
  rw [if_neg h1, if_neg h2, if_neg h3, if_neg h4, if_neg h5, if_neg h6]

theorem digit_facts {c : Char} (h : isDigitChar c = true) :
    isJsonWs c = false ∧ ¬ c = 'n' ∧ ¬ c = 't' ∧ ¬ c = 'f' ∧ ¬ c = '"' ∧
      ¬ c = '[' ∧ ¬ c = '{' ∧ ¬ c = ']' ∧ ¬ c = '}' := by
  simp only [isDigitChar, Bool.and_eq_true, decide_eq_true_eq] at h
  refine ⟨?_, ?_, ?_, ?_, ?_, ?_, ?_, ?_, ?_⟩
  · simp only [isJsonWs, Bool.or_eq_false_iff, decide_eq_false_iff_not]
    omega
  all_goals (rintro rfl; revert h; decide)

/-- Every serialized value starts with a character that is neither
whitespace nor a closing bracket. -/
theorem serializeJson_head (j : Json) :
    ∃ c t, serializeJson j = c :: t ∧ isJsonWs c = false ∧
      ¬ c = ']' ∧ ¬ c = '}' := by
  cases j with
  | null =>
      exact ⟨'n', ['u', 'l', 'l'], by rw [serializeJson], by decide, by decide,
        by decide⟩
  | bool b =>
      cases b
      · exact ⟨'f', ['a', 'l', 's', 'e'], by rw [serializeJson], by decide,
          by decide, by decide⟩
      · exact ⟨'t', ['r', 'u', 'e'], by rw [serializeJson], by decide,
          by decide, by decide⟩
  | num n =>
      by_cases hn : n < 0
      · refine ⟨'-', natChars n.natAbs, ?_, by decide, by decide, by decide⟩
        rw [serializeJson]
        simp [intChars, hn]
      · obtain ⟨c, t, hnc, hdig, -, -⟩ := natChars_head n.natAbs
        obtain ⟨hws, -, -, -, -, -, -, hbr1, hbr2⟩ := digit_facts hdig
        refine ⟨c, t, ?_, hws, hbr1, hbr2⟩
        rw [serializeJson]
        simp [intChars, hn, hnc]
  | str s =>
      exact ⟨'"', (s.data.map escapeChar).flatten ++ ['"'],
        by rw [serializeJson]; rfl, by decide, by decide, by decide⟩
  | arr es =>
      cases es with
      | nil => exact ⟨'[', [']'], by rw [serializeJson], by decide, by decide,
          by decide⟩
      | cons x xs =>
          exact ⟨'[', serializeElems x xs ++ [']'], by rw [serializeJson],
            by decide, by decide, by decide⟩
  | obj ms =>
      cases ms with
      | nil => exact ⟨'{', ['}'], by rw [serializeJson], by decide, by decide,
          by decide⟩
      | cons m ms =>
          exact ⟨'{', serializeMembers m ms ++ ['}'], by rw [serializeJson],
            by decide, by decide, by decide⟩

theorem needFuel_pos (j : Json) : 1 ≤ needFuel j := by
  cases j with
  | arr es => cases es <;> simp [needFuel]
  | obj ms => cases ms <;> simp [needFuel]
  | null => simp [needFuel]
  | bool b => simp [needFuel]
  | num n => simp [needFuel]
  | str s => simp [needFuel]

theorem dictInsert_fresh (acc : List (String × Json)) (k : String) (v : Json)
    (h : ∀ p ∈ acc, ¬ p.1 = k) :
    dictInsert acc k v = acc ++ [(k, v)] := by
  have hno : acc.any (fun p => p.1 == k) = false := by
    rw [List.any_eq_false]
    intro p hp
    simpa using h p hp
  unfold dictInsert
  simp [hno]

theorem pv_num_serialized (f : Nat) (n : Int) (rest : List Char)
    (hb : numBoundaryOk rest = true) :
    parseValue (f + 1) (intChars n ++ rest) = some (.num n, rest) := by
  have hnum := parseNumber_intChars n rest hb
  by_cases hn : n < 0
  · have hshape : intChars n ++ rest = '-' :: (natChars n.natAbs ++ rest) := by
      simp [intChars, hn]
    rw [hshape, pv_number f _ (by decide) (by decide) (by decide) (by decide)
      (by decide) (by decide) (by decide), ← hshape, hnum]
  · obtain ⟨c, t, hnc, hdig, -, -⟩ := natChars_head n.natAbs
    have hshape : intChars n ++ rest = c :: (t ++ rest) := by
      simp [intChars, hn, hnc]
    obtain ⟨hws, k1, k2, k3, k4, k5, k6, -, -⟩ := digit_facts hdig
    rw [hshape, pv_number f _ hws k1 k2 k3 k4 k5 k6, ← hshape, hnum]

mutual
theorem parse_serialize : ∀ (j : Json) (fuel : Nat) (rest : List Char),
    needFuel j ≤ fuel → wellFormed j = true → numBoundaryOk rest = true →
    parseValue fuel (serializeJson j ++ rest) = some (j, rest)
  | .null, fuel, rest, hf, _, _ => by
      obtain ⟨f, rfl⟩ : ∃ f, fuel = f + 1 :=
        ⟨fuel - 1, by have := needFuel_pos .null; omega⟩
      rw [show serializeJson .null ++ rest = 'n' :: 'u' :: 'l' :: 'l' :: rest
        from by rw [serializeJson]; rfl]
      exact pv_null f rest
  | .bool true, fuel, rest, hf, _, _ => by
      obtain ⟨f, rfl⟩ : ∃ f, fuel = f + 1 :=
        ⟨fuel - 1, by have := needFuel_pos (.bool true); omega⟩
      rw [show serializeJson (.bool true) ++ rest =
        't' :: 'r' :: 'u' :: 'e' :: rest from by rw [serializeJson]; rfl]
      exact pv_true f rest
  | .bool false, fuel, rest, hf, _, _ => by
      obtain ⟨f, rfl⟩ : ∃ f, fuel = f + 1 :=
        ⟨fuel - 1, by have := needFuel_pos (.bool false); omega⟩
      rw [show serializeJson (.bool false) ++ rest =
        'f' :: 'a' :: 'l' :: 's' :: 'e' :: rest from by rw [serializeJson]; rfl]
      exact pv_false f rest
  | .num n, fuel, rest, hf, _, hb => by
      obtain ⟨f, rfl⟩ : ∃ f, fuel = f + 1 :=
        ⟨fuel - 1, by have := needFuel_pos (.num n); omega⟩
      rw [show serializeJson (.num n) = intChars n from by rw [serializeJson]]
      exact pv_num_serialized f n rest hb
  | .str s, fuel, rest, hf, _, _ => by
      obtain ⟨f, rfl⟩ : ∃ f, fuel = f + 1 :=
        ⟨fuel - 1, by have := needFuel_pos (.str s); omega⟩
      rw [show serializeJson (.str s) ++ rest =
        '"' :: ((s.data.map escapeChar).flatten ++ '"' :: rest) from by
          rw [serializeJson]; simp [serializeStringChars]]
      rw [pv_str, parseJString_serialized]
      rfl
  | .arr [], fuel, rest, hf, _, _ => by
      obtain ⟨f, rfl⟩ : ∃ f, fuel = f + 1 :=
        ⟨fuel - 1, by have := needFuel_pos (.arr []); omega⟩
      rw [show serializeJson (.arr []) ++ rest = '[' :: ']' :: rest
        from by rw [serializeJson]; rfl]
      exact pv_arr_nil f rest
  | .arr (x :: xs), fuel, rest, hf, hw, _ => by
      rw [needFuel] at hf
      obtain ⟨f, rfl⟩ : ∃ f, fuel = f + 1 := ⟨fuel - 1, by omega⟩
      rw [wellFormed, wellFormedElems, Bool.and_eq_true] at hw
      rw [show serializeJson (.arr (x :: xs)) ++ rest =
        '[' :: (serializeElems x xs ++ ']' :: rest) from by
          rw [serializeJson]; simp]
      obtain ⟨c, t, hc1, hcws, hcbr, -⟩ := serializeJson_head x
      have hheadE : ∃ t2, serializeElems x xs ++ ']' :: rest = c :: t2 := by
        cases xs with
        | nil =>
            refine ⟨t ++ ']' :: rest, ?_⟩
            rw [show serializeElems x [] = serializeJson x from by
              rw [serializeElems], hc1]
            rfl
        | cons y ys =>
            refine ⟨t ++ ',' :: serializeElems y ys ++ ']' :: rest, ?_⟩
            rw [show serializeElems x (y :: ys) =
              serializeJson x ++ ',' :: serializeElems y ys from by
                rw [serializeElems], hc1]
            simp
      obtain ⟨t2, ht2⟩ := hheadE
      rw [pv_arr f _ (by rw [ht2]; exact skipWs_cons _ hcws) hcbr]
      have := parse_serialize_elems x xs f rest [] (by omega) hw.1 hw.2
      simpa using this
  | .obj [], fuel, rest, hf, _, _ => by
      obtain ⟨f, rfl⟩ : ∃ f, fuel = f + 1 :=
        ⟨fuel - 1, by have := needFuel_pos (.obj []); omega⟩
      rw [show serializeJson (.obj []) ++ rest = '{' :: '}' :: rest
        from by rw [serializeJson]; rfl]
      exact pv_obj_nil f rest
  | .obj ((k, v) :: ms), fuel, rest, hf, hw, _ => by
      rw [needFuel] at hf
      obtain ⟨f, rfl⟩ : ∃ f, fuel = f + 1 := ⟨fuel - 1, by omega⟩
      rw [wellFormed, wellFormedMembers, Bool.and_eq_true, Bool.and_eq_true]
        at hw
      rw [show serializeJson (.obj ((k, v) :: ms)) ++ rest =
        '{' :: (serializeMembers (k, v) ms ++ '}' :: rest) from by
          rw [serializeJson]; simp]
      have hhead : ∃ t2, serializeMembers (k, v) ms ++ '}' :: rest =
          '"' :: t2 := by
        cases ms with
        | nil =>
            refine ⟨((k.data.map escapeChar).flatten ++ ['"']) ++
              ':' :: serializeJson v ++ '}' :: rest, ?_⟩
            rw [show serializeMembers (k, v) [] =
              serializeStringChars k ++ ':' :: serializeJson v from by
                rw [serializeMembers]]
            simp [serializeStringChars]
        | cons m2 ms2 =>
            refine ⟨((k.data.map escapeChar).flatten ++ ['"']) ++
              ':' :: serializeJson v ++ ',' :: serializeMembers m2 ms2 ++
                '}' :: rest, ?_⟩
            rw [show serializeMembers (k, v) (m2 :: ms2) =
              serializeStringChars k ++ ':' :: serializeJson v ++
                ',' :: serializeMembers m2 ms2 from by rw [serializeMembers]]
            simp [serializeStringChars]
      obtain ⟨t2, ht2⟩ := hhead
      rw [pv_obj f _ (by rw [ht2]; exact skipWs_cons _ (by decide))
        (by decide)]
      have := parse_serialize_members k v ms f rest [] (by omega) hw.1.1
        hw.1.2 hw.2 (by intro p hp; simp at hp)
      simpa using this
termination_by j _ _ _ _ _ => sizeOf j
decreasing_by all_goals (simp_wf <;> omega)
theorem parse_serialize_elems : ∀ (x : Json) (xs : List Json) (fuel : Nat)
    (rest : List Char) (acc : List Json),
    needFuelElems x xs ≤ fuel → wellFormed x = true →
    wellFormedElems xs = true →
    parseElems fuel (serializeElems x xs ++ ']' :: rest) acc =
      some (.arr (acc ++ x :: xs), rest)
  | x, [], fuel, rest, acc, hf, hwx, _ => by
      rw [needFuelElems] at hf
      obtain ⟨f, rfl⟩ : ∃ f, fuel = f + 1 := ⟨fuel - 1, by omega⟩
      rw [show serializeElems x [] = serializeJson x from by
        rw [serializeElems]]
      rw [parseElems]
      try dsimp only
      rw [parse_serialize x f (']' :: rest) (by omega) hwx rfl]
      try dsimp only
      simp [skipWs_rbracket]
  | x, y :: ys, fuel, rest, acc, hf, hwx, hwys => by
      rw [needFuelElems] at hf
      obtain ⟨f, rfl⟩ : ∃ f, fuel = f + 1 := ⟨fuel - 1, by omega⟩
      rw [wellFormedElems, Bool.and_eq_true] at hwys
      rw [show serializeElems x (y :: ys) ++ ']' :: rest =
        serializeJson x ++ (',' :: (serializeElems y ys ++ ']' :: rest))
        from by rw [serializeElems]; simp]
      rw [parseElems]
      try dsimp only
      rw [parse_serialize x f (',' :: (serializeElems y ys ++ ']' :: rest))
        (by omega) hwx rfl]
      try dsimp only
      simp [skipWs_comma,
        parse_serialize_elems y ys f rest (acc ++ [x]) (by omega)
          hwys.1 hwys.2]
termination_by x xs _ _ _ _ _ _ => 1 + sizeOf x + sizeOf xs
decreasing_by all_goals (simp_wf <;> omega)
theorem parse_serialize_members : ∀ (k : String) (v : Json)
    (ms : List (String × Json)) (fuel : Nat) (rest : List Char)
    (acc : List (String × Json)),
    needFuelMembers (k, v) ms ≤ fuel → wellFormed v = true →
    wellFormedMembers ms = true →
    keysNodup (((k, v) :: ms).map Prod.fst) = true →
    (∀ p ∈ acc, ∀ k2 ∈ ((k, v) :: ms).map Prod.fst, ¬ p.1 = k2) →
    parseMembers fuel (serializeMembers (k, v) ms ++ '}' :: rest) acc =
      some (.obj (acc ++ (k, v) :: ms), rest)
  | k, v, [], fuel, rest, acc, hf, hwv, _, _, hfresh => by
      rw [needFuelMembers] at hf
      obtain ⟨f, rfl⟩ : ∃ f, fuel = f + 1 := ⟨fuel - 1, by omega⟩
      rw [show serializeMembers (k, v) [] ++ '}' :: rest =
        '"' :: ((k.data.map escapeChar).flatten ++
          '"' :: (':' :: (serializeJson v ++ '}' :: rest))) from by
        rw [serializeMembers]; simp [serializeStringChars]]
      rw [parseMembers]
      try dsimp only
      simp [skipWs_quote, skipWs_colon, skipWs_rbrace, parseJString_serialized,
        parse_serialize v f ('}' :: rest) (by omega) hwv rfl,
        dictInsert_fresh acc k v (fun p hp => hfresh p hp k (by simp))]
  | k, v, (k2, v2) :: ms2, fuel, rest, acc, hf, hwv, hwm, hnd, hfresh => by
      rw [needFuelMembers] at hf
      obtain ⟨f, rfl⟩ : ∃ f, fuel = f + 1 := ⟨fuel - 1, by omega⟩
      rw [wellFormedMembers, Bool.and_eq_true] at hwm
      rw [show serializeMembers (k, v) ((k2, v2) :: ms2) ++ '}' :: rest =
        '"' :: ((k.data.map escapeChar).flatten ++
          '"' :: (':' :: (serializeJson v ++
            ',' :: (serializeMembers (k2, v2) ms2 ++ '}' :: rest)))) from by
        rw [serializeMembers]; simp [serializeStringChars]]
      rw [parseMembers]
      rw [List.map_cons, keysNodup, Bool.and_eq_true, Bool.not_eq_true'] at hnd
      have hkmem : ¬ k ∈ List.map Prod.fst ((k2, v2) :: ms2) := by
        have h1 := hnd.1
        simpa using h1
      have hknotin : ∀ k3 ∈ ((k2, v2) :: ms2).map Prod.fst, ¬ k = k3 := by
        intro k3 hk3 hkk
        exact hkmem (hkk ▸ hk3)
      have hnd2 : keysNodup (((k2, v2) :: ms2).map Prod.fst) = true := hnd.2
      try dsimp only
      simp [skipWs_quote, skipWs_colon, skipWs_comma, parseJString_serialized,
        parse_serialize v f
          (',' :: (serializeMembers (k2, v2) ms2 ++ '}' :: rest))
          (by omega) hwv rfl,
        dictInsert_fresh acc k v (fun p hp => hfresh p hp k (by simp)),
        parse_serialize_members k2 v2 ms2 f rest (acc ++ [(k, v)])
          (by omega) hwm.1 hwm.2 hnd2 (by
            intro p hp k3 hk3
            rcases List.mem_append.mp hp with h | h
            · exact hfresh p h k3 (by simp at hk3 ⊢; tauto)
            · simp only [List.mem_singleton] at h
              subst h
              exact hknotin k3 hk3)]
termination_by _ v ms _ _ _ _ _ _ _ _ => 1 + sizeOf v + sizeOf ms
decreasing_by all_goals (simp_wf <;> omega)
end

theorem serializeJson_length_pos (j : Json) : 1 ≤ (serializeJson j).length := by
  obtain ⟨c, t, h, -, -, -⟩ := serializeJson_head j
  rw [h]
  simp

mutual
theorem needFuel_le_length : ∀ j : Json, needFuel j ≤ (serializeJson j).length
  | .null => by rw [needFuel, serializeJson]; simp
  | .bool true => by rw [needFuel, serializeJson]; simp
  | .bool false => by rw [needFuel, serializeJson]; simp
  | .num n => by
      rw [needFuel]
      exact serializeJson_length_pos (.num n)
  | .str s => by
      rw [needFuel]
      exact serializeJson_length_pos (.str s)
  | .arr [] => by rw [needFuel, serializeJson]; simp
  | .arr (x :: xs) => by
      rw [needFuel, serializeJson]
      have := needFuelElems_le_length x xs
      simp only [List.length_cons, List.length_append, List.length_singleton]
      omega
  | .obj [] => by rw [needFuel, serializeJson]; simp
  | .obj ((k, v) :: ms) => by
      rw [needFuel, serializeJson]
      have := needFuelMembers_le_length k v ms
      simp only [List.length_cons, List.length_append, List.length_singleton]
      omega
termination_by j => sizeOf j
decreasing_by all_goals (simp_wf <;> omega)
theorem needFuelElems_le_length : ∀ (x : Json) (xs : List Json),
    needFuelElems x xs ≤ (serializeElems x xs).length + 1
  | x, [] => by
      rw [needFuelElems, serializeElems]
      have := needFuel_le_length x
      omega
  | x, y :: ys => by
      rw [needFuelElems, serializeElems]
      have h1 := needFuel_le_length x
      have h2 := needFuelElems_le_length y ys
      have h3 := serializeJson_length_pos x
      simp only [List.length_append, List.length_cons]
      omega
termination_by x xs => 1 + sizeOf x + sizeOf xs
decreasing_by all_goals (simp_wf <;> omega)
theorem needFuelMembers_le_length : ∀ (k : String) (v : Json)
    (ms : List (String × Json)),
    needFuelMembers (k, v) ms ≤ (serializeMembers (k, v) ms).length + 1
  | k, v, [] => by
      rw [needFuelMembers, serializeMembers]
      have := needFuel_le_length v
      simp only [List.length_append, List.length_cons]
      omega
  | k, v, (k2, v2) :: ms2 => by
      rw [needFuelMembers, serializeMembers]
      have h1 := needFuel_le_length v
      have h2 := needFuelMembers_le_length k2 v2 ms2
      simp only [List.length_append, List.length_cons]
      omega
termination_by k v ms => 1 + sizeOf v + sizeOf ms
decreasing_by all_goals (simp_wf <;> omega)
end

/-- Round trip: `json.loads(json.dumps(obj, separators=(",", ":"))) == obj`
for every well-formed value (objects built by `json.loads` always are). -/
theorem jsonLoads_dumps (j : Json) (hw : wellFormed j = true) :
    jsonLoads (dumps j) = some j := by
  unfold jsonLoads dumps
  rw [show (String.mk (serializeJson j)).data = serializeJson j from rfl]
  rw [show (String.mk (serializeJson j)).length = (serializeJson j).length
    from rfl]
  have hp := parse_serialize j ((serializeJson j).length + 1) []
    (by have := needFuel_le_length j; omega) hw rfl
  rw [show serializeJson j ++ [] = serializeJson j from by simp] at hp
  rw [hp]
  rfl

theorem wellFormedElems_iff (l : List Json) :
    wellFormedElems l = true ↔ ∀ x ∈ l, wellFormed x = true := by
  induction l with
  | nil => rw [wellFormedElems]; simp
  | cons x xs ih =>
      rw [wellFormedElems, Bool.and_eq_true, ih]
      simp

theorem wellFormedMembers_iff (l : List (String × Json)) :
    wellFormedMembers l = true ↔ ∀ p ∈ l, wellFormed p.2 = true := by
  induction l with
  | nil => rw [wellFormedMembers]; simp
  | cons m ms ih =>
      obtain ⟨k, v⟩ := m
      rw [wellFormedMembers, Bool.and_eq_true, ih]
      simp

theorem keysNodup_iff (ks : List String) : keysNodup ks = true ↔ ks.Nodup := by
  induction ks with
  | nil => rw [keysNodup]; simp
  | cons a ks ih =>
      rw [keysNodup, Bool.and_eq_true, ih]
      simp [List.nodup_cons]

theorem mem_dictInsert (acc : List (String × Json)) (k : String) (v : Json)
    (p : String × Json) (hp : p ∈ dictInsert acc k v) :
    p ∈ acc ∨ p = (k, v) := by
  unfold dictInsert at hp
  split at hp
  · rcases List.mem_map.mp hp with ⟨q, hq, heq⟩
    by_cases hqk : q.1 == k
    · rw [if_pos hqk] at heq
      right
      exact heq.symm
    · rw [if_neg hqk] at heq
      left
      exact heq ▸ hq
  · rcases List.mem_append.mp hp with h | h
    · exact Or.inl h
    · simp only [List.mem_singleton] at h
      exact Or.inr h

theorem keys_dictInsert (acc : List (String × Json)) (k : String) (v : Json) :
    (dictInsert acc k v).map Prod.fst = acc.map Prod.fst ∨
    (dictInsert acc k v).map Prod.fst = acc.map Prod.fst ++ [k] := by
  unfold dictInsert
  split
  · left
    rw [List.map_map]
    apply List.map_congr_left
    intro p _
    by_cases hpk : p.1 == k
    · simp only [Function.comp_apply, if_pos hpk]
      exact (eq_of_beq hpk).symm
    · simp only [Function.comp_apply, if_neg hpk]
  · right
    simp

theorem keysNodup_dictInsert (acc : List (String × Json)) (k : String)
    (v : Json) (h : keysNodup (acc.map Prod.fst) = true) :
    keysNodup ((dictInsert acc k v).map Prod.fst) = true := by
  rcases keys_dictInsert acc k v with heq | heq
  · rw [heq]; exact h
  · rw [heq]
    unfold dictInsert at heq
    split at heq
    · exfalso
      rename_i hany
      have hlen := congrArg List.length heq
      simp at hlen
    · rename_i hany
      rw [keysNodup_iff] at h ⊢
      have hk : ¬ k ∈ acc.map Prod.fst := by
        intro hk
        rcases List.mem_map.mp hk with ⟨q, hq, hqk⟩
        have : acc.any (fun p => p.1 == k) = true :=
          List.any_eq_true.mpr ⟨q, hq, by simp [hqk]⟩
        simp [this] at hany
      simp [List.nodup_append, h, hk]

/-- Every value produced by the parser is well-formed: object keys are
distinct, because objects are built with Python-`dict` insertion. -/
theorem parse_wf : ∀ fuel : Nat,
    (∀ l j r, parseValue fuel l = some (j, r) → wellFormed j = true) ∧
    (∀ l acc j r, parseElems fuel l acc = some (j, r) →
      (∀ x ∈ acc, wellFormed x = true) → wellFormed j = true) ∧
    (∀ l acc j r, parseMembers fuel l acc = some (j, r) →
      wellFormedMembers acc = true → keysNodup (acc.map Prod.fst) = true →
      wellFormed j = true) := by
  intro fuel
  induction fuel with
  | zero =>
      refine ⟨?_, ?_, ?_⟩ <;> intro l
      · intro j r h; rw [parseValue] at h; cases h
      · intro acc j r h; rw [parseElems] at h; cases h
      · intro acc j r h; rw [parseMembers] at h; cases h
  | succ f ih =>
      obtain ⟨ihv, ihe, ihm⟩ := ih
      refine ⟨?_, ?_, ?_⟩
      · intro l j r h
        rw [parseValue] at h
        split at h
        · cases h
        · rename_i c rest heq
          split_ifs at h with h1 h2 h3 h4 h5 h6
          · -- null
            split at h
            · injection h with h
              rw [Prod.mk.injEq] at h
              rw [← h.1, wellFormed]
            · cases h
          · split at h
            · injection h with h
              rw [Prod.mk.injEq] at h
              rw [← h.1, wellFormed]
            · cases h
          · split at h
            · injection h with h
              rw [Prod.mk.injEq] at h
              rw [← h.1, wellFormed]
            · cases h
          · -- string
            cases hs : parseJString rest with
            | none => rw [hs] at h; cases h
            | some p =>
                rw [hs] at h
                injection h with h
                rw [Prod.mk.injEq] at h
                rw [← h.1, wellFormed]
          · -- array
            split at h
            · injection h with h
              rw [Prod.mk.injEq] at h
              rw [← h.1, wellFormed, wellFormedElems]
            · exact ihe rest [] j r h (by intro x hx; cases hx)
          · -- object
            split at h
            · injection h with h
              rw [Prod.mk.injEq] at h
              rw [← h.1, wellFormed, wellFormedMembers, List.map_nil,
                keysNodup]
              rfl
            · exact ihm rest [] j r h (by rw [wellFormedMembers])
                (by rw [List.map_nil]; rw [keysNodup])
          · -- number
            unfold parseNumber at h
            split at h
            all_goals
              (cases hu : parseNatNumber _ with
                | none => rw [hu] at h; cases h
                | some q =>
                    rw [hu] at h
                    injection h with h
                    rw [Prod.mk.injEq] at h
                    rw [← h.1, wellFormed])
      · intro l acc j r h hacc
        rw [parseElems] at h
        split at h
        · cases h
        · rename_i v rest heq
          have hwv := ihv l v rest heq
          split at h
          · rename_i r2 heq2
            exact ihe r2 (acc ++ [v]) j r h (by
              intro x hx
              rcases List.mem_append.mp hx with hx | hx
              · exact hacc x hx
              · simp only [List.mem_singleton] at hx
                exact hx ▸ hwv)
          · rename_i r2 heq2
            injection h with h
            rw [Prod.mk.injEq] at h
            rw [← h.1, wellFormed, wellFormedElems_iff]
            intro x hx
            rcases List.mem_append.mp hx with hx | hx
            · exact hacc x hx
            · simp only [List.mem_singleton] at hx
              exact hx ▸ hwv
          · cases h
      · intro l acc j r h haccw haccn
        rw [parseMembers] at h
        split at h
        · rename_i rest heq0
          split at h
          · cases h
          · rename_i k rest1 heq1
            split at h
            · rename_i rest2 heq2
              split at h
              · cases h
              · rename_i v rest3 heq3
                have hwv := ihv rest2 v rest3 heq3
                have hwins : wellFormedMembers (dictInsert acc k v)
                    = true := by
                  rw [wellFormedMembers_iff]
                  intro p hp
                  rcases mem_dictInsert acc k v p hp with hp | hp
                  · exact (wellFormedMembers_iff acc).mp haccw p hp
                  · rw [hp]
                    exact hwv
                have hnins := keysNodup_dictInsert acc k v haccn
                split at h
                · exact ihm _ (dictInsert acc k v) j r h hwins hnins
                · injection h with h
                  rw [Prod.mk.injEq] at h
                  rw [← h.1, wellFormed, Bool.and_eq_true]
                  exact ⟨hwins, hnins⟩
                · cases h
            · cases h
        · cases h

/-! ## Record parsing (`parser.parse_ndjson`, `parser.parse_log_file`)

`parse_ndjson` interprets decompressed text as either one JSON array of
objects or newline-delimited JSON, skipping malformed lines.
`parse_log_file` validates each decoded object against the Pydantic model
(external: the `validate` parameter; `AuditLogEntry.model_validate` accepts
only `dict`-shaped input) and pairs it with its compact re-serialization.
Python `str.splitlines` is modelled for the `\n`, `\r`, `\r\n` line
boundaries (the audit payloads are JSON text). -/

def pySplitlinesAux : List Char → List Char → List (List Char)
  | [], acc => if acc.isEmpty then [] else [acc.reverse]
  | c :: r, acc =>
    if c = Char.ofNat 13 then
      match r with
      | c2 :: r2 =>
          if c2 = Char.ofNat 10 then acc.reverse :: pySplitlinesAux r2 []
          else acc.reverse :: pySplitlinesAux (c2 :: r2) []
      | [] => acc.reverse :: pySplitlinesAux [] []
    else if c = Char.ofNat 10 then acc.reverse :: pySplitlinesAux r []
    else pySplitlinesAux r (c :: acc)
termination_by l _ => l.length
decreasing_by all_goals simp_wf <;> omega

def pySplitlines (s : String) : List String :=
  (pySplitlinesAux s.data []).map fun l => ⟨l⟩

def ndjsonLines (t : String) : List Json :=
  (pySplitlines t).filterMap (fun line =>
    if (pyStrip line).data.isEmpty then none else jsonLoads (pyStrip line))

def parse_ndjson (text : String) : List Json :=
  if (pyStrip text).data.isEmpty then []
  else if (pyStrip text).data.head? = some '[' then
    match jsonLoads (pyStrip text) with
    | some (.arr xs) => xs
    | _ => ndjsonLines (pyStrip text)
  else ndjsonLines (pyStrip text)

/-- `parser.ParsedEntry`: the validated entry (we keep the decoded object
underlying the Pydantic model) together with the original JSON string. -/
structure ParsedEntry where
  entry : Json
  raw_json : String

def parse_log_file (gz : List Nat → GzipResult) (zp : List Nat → ZipResult)
    (utf8 : List Nat → Option String) (validate : Json → Bool)
    (data : List Nat) : Except PyError (List ParsedEntry) :=
  match decompress gz zp utf8 data with
  | .error e => .error e
  | .ok text =>
      .ok ((parse_ndjson text).filterMap (fun raw =>
        if validate raw then some ⟨raw, dumps raw⟩ else none))

/-- `parser.parse_log_files`: each file independently; a `ValueError`
(decompression failure) is caught and the file skipped; any other
exception escapes. -/
def parse_log_files (gz : List Nat → GzipResult) (zp : List Nat → ZipResult)
    (utf8 : List Nat → Option String) (validate : Json → Bool) :
    List (List Nat) → Except String (List ParsedEntry)
  | [] => .ok []
  | d :: ds =>
    match parse_log_file gz zp utf8 validate d with
    | .ok es =>
        (parse_log_files gz zp utf8 validate ds).map (fun rest => es ++ rest)
    | .error (.valueError _) => parse_log_files gz zp utf8 validate ds
    | .error (.uncaught m) => .error m

theorem jsonLoads_wf {s : String} {j : Json} (h : jsonLoads s = some j) :
    wellFormed j = true := by
  unfold jsonLoads at h
  split at h
  · rename_i j0 r0 heq
    split at h
    · injection h with h
      exact h ▸ (parse_wf (s.length + 1)).1 s.data j0 r0 heq
    · cases h
  · cases h

theorem parse_ndjson_wf (text : String) :
    ∀ raw ∈ parse_ndjson text, wellFormed raw = true := by
  intro raw hraw
  have hlines : ∀ t : String, raw ∈ ndjsonLines t → wellFormed raw = true := by
    intro t ht
    rcases List.mem_filterMap.mp ht with ⟨line, -, hline⟩
    try dsimp only at hline
    split at hline
    · cases hline
    · exact jsonLoads_wf hline
  unfold parse_ndjson at hraw
  split at hraw
  · cases hraw
  · split at hraw
    · split at hraw
      · rename_i xs heq
        have hwf := jsonLoads_wf heq
        rw [wellFormed] at hwf
        exact (wellFormedElems_iff xs).mp hwf raw hraw
      · exact hlines _ hraw
    · exact hlines _ hraw

/-- Every kept entry's stored payload string is the deterministic compact
re-serialization of its decoded object, and parsing it back yields exactly
that object. -/
theorem parse_log_file_roundtrip (gz : List Nat → GzipResult)
    (zp : List Nat → ZipResult) (utf8 : List Nat → Option String)
    (validate : Json → Bool) (data : List Nat)
    (entries : List ParsedEntry)
    (hok : parse_log_file gz zp utf8 validate data = .ok entries) :
    ∀ pe ∈ entries, pe.raw_json = dumps pe.entry ∧
      jsonLoads pe.raw_json = some pe.entry := by
  intro pe hpe
  unfold parse_log_file at hok
  split at hok
  · cases hok
  · rename_i text heq
    injection hok with hok
    rw [← hok] at hpe
    rcases List.mem_filterMap.mp hpe with ⟨raw, hraw, hkeep⟩
    try dsimp only at hkeep
    split at hkeep
    · injection hkeep with hkeep
      have hwf := parse_ndjson_wf text raw hraw
      rw [← hkeep]
      exact ⟨rfl, jsonLoads_dumps raw hwf⟩
    · cases hkeep

/-! ### `cache._entry_id`: SHA-256 of the UTF-8 payload, first 16 hex chars

`hashlib.sha256(raw_json.encode("utf-8")).hexdigest()[:16]`, embedded as
FIPS 180-4 SHA-256 over `Nat` words reduced mod `2^32`. -/

/-- UTF-8 encoding of one Unicode scalar value (`str.encode("utf-8")`). -/
def utf8Bytes (c : Char) : List Nat :=
  if c.toNat < 128 then [c.toNat]
  else if c.toNat < 2048 then [192 + c.toNat / 64, 128 + c.toNat % 64]
  else if c.toNat < 65536 then
    [224 + c.toNat / 4096, 128 + c.toNat / 64 % 64, 128 + c.toNat % 64]
  else
    [240 + c.toNat / 262144, 128 + c.toNat / 4096 % 64,
     128 + c.toNat / 64 % 64, 128 + c.toNat % 64]

def strBytes (s : String) : List Nat := (s.data.map utf8Bytes).flatten

/-- Truncation to a 32-bit word. -/
def w32 (n : Nat) : Nat := n % 4294967296

/-- Right rotation of a 32-bit word by `k` bits. -/
def rotr (k x : Nat) : Nat := w32 ((x >>> k) ||| (x <<< (32 - k)))

def sigma0 (x : Nat) : Nat := rotr 7 x ^^^ rotr 18 x ^^^ (x >>> 3)

def sigma1 (x : Nat) : Nat := rotr 17 x ^^^ rotr 19 x ^^^ (x >>> 10)

def bigSigma0 (x : Nat) : Nat := rotr 2 x ^^^ rotr 13 x ^^^ rotr 22 x

def bigSigma1 (x : Nat) : Nat := rotr 6 x ^^^ rotr 11 x ^^^ rotr 25 x

def chF (e f g : Nat) : Nat := (e &&& f) ^^^ ((e ^^^ 4294967295) &&& g)

def majF (a b c : Nat) : Nat := (a &&& b) ^^^ (a &&& c) ^^^ (b &&& c)

/-- The 64 SHA-256 round constants. -/
def sha256K : List Nat :=
  [1116352408, 1899447441, 3049323471, 3921009573, 961987163, 1508970993,
   2453635748, 2870763221, 3624381080, 310598401, 607225278, 1426881987,
   1925078388, 2162078206, 2614888103, 3248222580, 3835390401, 4022224774,
   264347078, 604807628, 770255983, 1249150122, 1555081692, 1996064986,
   2554220882, 2821834349, 2952996808, 3210313671, 3336571891, 3584528711,
   113926993, 338241895, 666307205, 773529912, 1294757372, 1396182291,
   1695183700, 1986661051, 2177026350, 2456956037, 2730485921, 2820302411,
   3259730800, 3345764771, 3516065817, 3600352804, 4094571909, 275423344,
   430227734, 506948616, 659060556, 883997877, 958139571, 1322822218,
   1537002063, 1747873779, 1955562222, 2024104815, 2227730452, 2361852424,
   2428436474, 2756734187, 3204031479, 3329325298]

/-- The initial SHA-256 hash value. -/
def sha256H0 : List Nat :=
  [1779033703, 3144134277, 1013904242, 2773480762, 1359893119, 2600822924,
   528734635, 1541459225]

def bigEndian8 (n : Nat) : List Nat :=
  [(n >>> 56) &&& 255, (n >>> 48) &&& 255, (n >>> 40) &&& 255,
   (n >>> 32) &&& 255, (n >>> 24) &&& 255, (n >>> 16) &&& 255,
   (n >>> 8) &&& 255, n &&& 255]

/-- SHA-256 padding: append `0x80`, zeros to 56 mod 64, then the bit length
as a 64-bit big-endian integer. -/
def padMessage (msg : List Nat) : List Nat :=
  msg ++ 128 :: List.replicate ((119 - msg.length % 64) % 64) 0 ++
    bigEndian8 (8 * msg.length)

/-- Split into 64-byte blocks (fuel-driven; `fuel ≥ l.length` suffices). -/
def toBlocks : Nat → List Nat → List (List Nat)
  | 0, _ => []
  | _ + 1, [] => []
  | fuel + 1, l => l.take 64 :: toBlocks fuel (l.drop 64)

/-- Big-endian 32-bit words from a list of bytes. -/
def bytesToWords : List Nat → List Nat
  | b0 :: b1 :: b2 :: b3 :: r =>
      (((b0 * 256 + b1) * 256 + b2) * 256 + b3) :: bytesToWords r
  | _ => []

/-- Extend the message schedule by `k` more words; `wrev` holds the words
produced so far, most recent first. -/
def extendSchedule : Nat → List Nat → List Nat
  | 0, wrev => wrev
  | k + 1, wrev =>
      extendSchedule k
        (w32 (sigma1 (wrev.getD 1 0) + wrev.getD 6 0 +
          sigma0 (wrev.getD 14 0) + wrev.getD 15 0) :: wrev)

structure Sha256State where
  a : Nat
  b : Nat
  c : Nat
  d : Nat
  e : Nat
  f : Nat
  g : Nat
  h : Nat

/-- One SHA-256 round; `p` is the pair (round constant, schedule word). -/
def sha256Round (st : Sha256State) (p : Nat × Nat) : Sha256State :=
  let t1 := w32 (st.h + bigSigma1 st.e + chF st.e st.f st.g + p.1 + p.2)
  let t2 := w32 (bigSigma0 st.a + majF st.a st.b st.c)
  ⟨w32 (t1 + t2), st.a, st.b, st.c, w32 (st.d + t1), st.e, st.f, st.g⟩

def compressBlock (hs : List Nat) (block : List Nat) : List Nat :=
  let ws := (extendSchedule 48 (bytesToWords block).reverse).reverse
  let st0 : Sha256State :=
    ⟨hs.getD 0 0, hs.getD 1 0, hs.getD 2 0, hs.getD 3 0,
     hs.getD 4 0, hs.getD 5 0, hs.getD 6 0, hs.getD 7 0⟩
  let stf := (List.zip sha256K ws).foldl sha256Round st0
  [w32 (hs.getD 0 0 + stf.a), w32 (hs.getD 1 0 + stf.b),
   w32 (hs.getD 2 0 + stf.c), w32 (hs.getD 3 0 + stf.d),
   w32 (hs.getD 4 0 + stf.e), w32 (hs.getD 5 0 + stf.f),
   w32 (hs.getD 6 0 + stf.g), w32 (hs.getD 7 0 + stf.h)]

/-- The eight 32-bit words of the SHA-256 digest of a byte string. -/
def sha256Words (msg : List Nat) : List Nat :=
  (toBlocks (padMessage msg).length (padMessage msg)).foldl
    compressBlock sha256H0


/-- Lowercase hex rendering of a 32-bit word (8 hex digits). -/
def wordHex (n : Nat) : List Char :=
  [hexDigitChar ((n >>> 28) &&& 15), hexDigitChar ((n >>> 24) &&& 15),
   hexDigitChar ((n >>> 20) &&& 15), hexDigitChar ((n >>> 16) &&& 15),
   hexDigitChar ((n >>> 12) &&& 15), hexDigitChar ((n >>> 8) &&& 15),
   hexDigitChar ((n >>> 4) &&& 15), hexDigitChar (n &&& 15)]

/-- `cache._entry_id`: first 16 hex characters of the SHA-256 hexdigest of
the UTF-8 encoded payload string. -/
def _entry_id (raw_json : String) : String :=
  ⟨(((sha256Words (strBytes raw_json)).map wordHex).flatten).take 16⟩

/-! ### `cache._safe_get` and `cache._extract_fields`

Python `str()` of a decoded JSON value: the string itself for `str`,
otherwise `repr`. `repr` of nested strings is modelled without Python's
quote/escape selection (keys and values free of quotes, backslashes and
control characters render identically); none of the claims depend on the
repr of such strings. -/

mutual
def pyReprChars : Json → List Char
  | .null => ['N', 'o', 'n', 'e']
  | .bool true => ['T', 'r', 'u', 'e']
  | .bool false => ['F', 'a', 'l', 's', 'e']
  | .num n => intChars n
  | .str s => Char.ofNat 39 :: (s.data ++ [Char.ofNat 39])
  | .arr [] => ['[', ']']
  | .arr (x :: xs) => '[' :: (pyReprElems x xs ++ [']'])
  | .obj [] => ['{', '}']
  | .obj (m :: ms) => '{' :: (pyReprMembers m ms ++ ['}'])
termination_by j => sizeOf j
decreasing_by all_goals simp_wf
def pyReprElems : Json → List Json → List Char
  | x, [] => pyReprChars x
  | x, y :: ys => pyReprChars x ++ ',' :: ' ' :: pyReprElems y ys
termination_by x xs => 1 + sizeOf x + sizeOf xs
decreasing_by all_goals (simp_wf <;> omega)
def pyReprMembers : String × Json → List (String × Json) → List Char
  | (k, v), [] =>
      Char.ofNat 39 :: (k.data ++ Char.ofNat 39 :: ':' :: ' ' :: pyReprChars v)
  | (k, v), m :: ms =>
      Char.ofNat 39 :: (k.data ++ Char.ofNat 39 :: ':' :: ' ' :: pyReprChars v) ++
        ',' :: ' ' :: pyReprMembers m ms
termination_by m ms => 1 + sizeOf m + sizeOf ms
decreasing_by all_goals (simp_wf <;> omega)
end

/-- Python `str()` of a decoded JSON value. -/
def pyStr : Json → String
  | .str s => s
  | j => ⟨pyReprChars j⟩

/-- `dict.get(key)`: the first (only, for real dicts) binding, if any. -/
def jsonGet (fs : List (String × Json)) (key : String) : Option Json :=
  (fs.find? (fun p => p.1 == key)).map (fun p => p.2)

/-- `cache._safe_get(d, *keys, default="")`: walk nested dicts; a non-dict
intermediate, a missing key or a `None` value yields `default`; otherwise
`str()` of the final value. -/
def _safe_get : Json → List String → String → String
  | current, [], default =>
      match current with
      | .null => default
      | c => pyStr c
  | current, key :: rest, default =>
      match current with
      | .obj fs =>
          match jsonGet fs key with
          | none => default
          | some .null => default
          | some v => _safe_get v rest default
      | _ => default

/-- Python truthiness of a decoded JSON value (for `raw.get("object", {}) or {}`). -/
def pyFalsy : Json → Bool
  | .null => true
  | .bool false => true
  | .num 0 => true
  | .str "" => true
  | .arr [] => true
  | .obj [] => true
  | _ => false

/-- `raw.get(key, default)` where `raw` is the decoded top-level dict. -/
def dictGet (raw : Json) (key : String) (default : Json) : Json :=
  match raw with
  | .obj fs =>
      match jsonGet fs key with
      | some v => v
      | none => default
  | _ => default

/-- `x or y` on the strings `_safe_get` produces (`""` is the only falsy one). -/
def pyOrStr (a b : String) : String := if a = "" then b else a

/-- The dict `_extract_fields` returns: the six top-level fields are passed
through as decoded values (`raw.get`), the rest are strings from `_safe_get`. -/
structure ExtractedFields where
  date : Json
  timestamp : Json
  event_type : Json
  category : Json
  action : Json
  source : Json
  outcome_type : String
  actor_type : String
  actor_id : String
  environment : String
  client_ip : String
  host : String
  session_id : String
  object_type : String

/-- `cache._extract_fields(raw)`. -/
def _extract_fields (raw : Json) : ExtractedFields :=
  let obj0 := dictGet raw "object" (.obj [])
  let obj := if pyFalsy obj0 then Json.obj [] else obj0
  { date := dictGet raw "date" (.str "")
    timestamp := dictGet raw "timestamp" (.str "")
    event_type := dictGet raw "eventType" (dictGet raw "event_type" (.str ""))
    category := dictGet raw "category" (.str "")
    action := dictGet raw "action" (.str "")
    source := dictGet raw "source" (.str "")
    outcome_type := _safe_get obj ["outcome", "type"] ""
    actor_type := _safe_get obj ["actor", "type"] ""
    actor_id := _safe_get obj ["actor", "identifier", "value"] ""
    environment := _safe_get obj ["context", "environment"] ""
    client_ip := pyOrStr (_safe_get obj ["context", "clientIp"] "")
      (_safe_get obj ["context", "client_ip"] "")
    host := _safe_get obj ["context", "host"] ""
    session_id := pyOrStr (_safe_get obj ["context", "sessionId"] "")
      (_safe_get obj ["context", "session_id"] "")
    object_type := _safe_get obj ["type"] "" }

/-! ### The SQLite cache (`cache.LogCache`)

A `TEXT` column holds `NULL` or a string. `sqlite3` binds Python `str` as
`TEXT`, `None` as `NULL`, and `int`/`bool` as `INTEGER` which the column's
`TEXT` affinity converts to its decimal rendering; a `list` or `dict` is an
unsupported type (`sqlite3.InterfaceError`, a `sqlite3.Error`). -/

inductive SqlVal where
  | nullV : SqlVal
  | textV : String → SqlVal
deriving DecidableEq, Repr

def bindVal : Json → Option SqlVal
  | .null => some .nullV
  | .bool b => some (.textV (if b then "1" else "0"))
  | .num n => some (.textV ⟨intChars n⟩)
  | .str s => some (.textV s)
  | .arr _ => none
  | .obj _ => none

/-- A row of `log_entries`. `id`, `raw_json` and `window_start` are always
bound from Python strings; `date` and `timestamp` are `TEXT NOT NULL`, so a
stored row holds strings there; the `_safe_get`-derived columns are always
strings. The six remaining columns take whatever value the payload had. -/
structure EntryRow where
  id : String
  raw_json : String
  date : String
  timestamp : String
  event_type : SqlVal
  category : SqlVal
  action : SqlVal
  source : SqlVal
  outcome_type : String
  actor_type : String
  actor_id : String
  environment : String
  client_ip : String
  host : String
  session_id : String
  object_type : String
  window_start : String
deriving DecidableEq, Repr

/-- A row of `fetched_windows`. -/
structure WindowRow where
  window_start : String
  window_end : String
  fetched_at : String
  file_count : Int
  entry_count : Int
deriving DecidableEq, Repr

structure CacheState where
  log_entries : List EntryRow
  fetched_windows : List WindowRow
deriving DecidableEq, Repr

/-- The `INSERT OR IGNORE INTO log_entries` statement for one entry: `none`
when `execute` raises a `sqlite3.Error` (unsupported bound type, or `NULL`
in the `NOT NULL` columns `date`/`timestamp`). -/
def mkEntryRow (eid raw ws : String) (f : ExtractedFields) :
    Option EntryRow := do
  let dv ← bindVal f.date
  let tv ← bindVal f.timestamp
  let ev ← bindVal f.event_type
  let cv ← bindVal f.category
  let av ← bindVal f.action
  let sv ← bindVal f.source
  match dv, tv with
  | .textV ds, .textV ts =>
      some { id := eid, raw_json := raw, date := ds, timestamp := ts,
             event_type := ev, category := cv, action := av, source := sv,
             outcome_type := f.outcome_type, actor_type := f.actor_type,
             actor_id := f.actor_id, environment := f.environment,
             client_ip := f.client_ip, host := f.host,
             session_id := f.session_id, object_type := f.object_type,
             window_start := ws }
  | _, _ => none

/-- What one iteration of `store_window`'s loop does with an entry:
`.ok none` when the entry is skipped (invalid JSON, or the insert raised a
caught `sqlite3.Error`), `.ok (some row)` when a row is offered to
`INSERT OR IGNORE`, `.error` when `json.loads` returned a non-dict and
`raw_dict.get` raised an uncaught `AttributeError`. -/
def entryAction (ws : String) (pe : ParsedEntry) :
    Except String (Option EntryRow) :=
  match jsonLoads pe.raw_json with
  | none => .ok none
  | some (.obj fs) =>
      .ok (mkEntryRow (_entry_id pe.raw_json) pe.raw_json ws
        (_extract_fields (.obj fs)))
  | some _ => .error "AttributeError"

/-- Database operations `store_window` issues. Changes become durable only
at `.commit` (the single `conn.commit()` at the end). -/
inductive DbOp where
  | insertEntry : EntryRow → DbOp
  | replaceWindow : WindowRow → DbOp
  | commit : DbOp
deriving DecidableEq, Repr

def applyOp (c : CacheState) : DbOp → CacheState
  | .insertEntry row =>
      if c.log_entries.any (fun r => r.id == row.id) then c
      else { c with log_entries := c.log_entries ++ [row] }
  | .replaceWindow w =>
      { c with fetched_windows :=
          (c.fetched_windows.filter (fun r =>
            !(r.window_start == w.window_start &&
              r.window_end == w.window_end))) ++ [w] }
  | .commit => c

/-- `store_window`'s per-entry loop: the issued operations together with
either the uncaught exception or (inserted-count, post-loop state). The
count increments exactly when `SELECT changes()` reports a fresh insert. -/
def storeEntriesT (ws : String) :
    CacheState → List ParsedEntry →
      List DbOp × Except String (Nat × CacheState)
  | c, [] => ([], .ok (0, c))
  | c, pe :: rest =>
      match entryAction ws pe with
      | .error e => ([], .error e)
      | .ok none => storeEntriesT ws c rest
      | .ok (some row) =>
          match storeEntriesT ws (applyOp c (.insertEntry row)) rest with
          | (ops, res) =>
              (.insertEntry row :: ops,
               if c.log_entries.any (fun r => r.id == row.id) then res
               else res.map (fun p => (p.1 + 1, p.2)))

/-- `LogCache.store_window`, as the operation trace it sends to the database
plus its outcome. On success the trace ends with the `INSERT OR REPLACE`
into `fetched_windows` followed by the single `conn.commit()`; on an
uncaught exception neither happens. `now` stands for
`datetime.now(timezone.utc)` rendered as in the source. -/
def store_windowT (c : CacheState) (ws we : String)
    (entries : List ParsedEntry) (file_count : Int) (now : String) :
    List DbOp × Except String (Nat × CacheState) :=
  match storeEntriesT ws c entries with
  | (ops, .error e) => (ops, .error e)
  | (ops, .ok (n, c1)) =>
      (ops ++ [.replaceWindow ⟨ws, we, now, file_count, Int.ofNat entries.length⟩,
        .commit],
       .ok (n, applyOp
         (applyOp c1 (.replaceWindow ⟨ws, we, now, file_count,
           Int.ofNat entries.length⟩)) .commit))

/-- `LogCache.store_window`: inserted count and resulting cache state. -/
def store_window (c : CacheState) (ws we : String)
    (entries : List ParsedEntry) (file_count : Int) (now : String) :
    Except String (Nat × CacheState) :=
  (store_windowT c ws we entries file_count now).2

/-- `LogCache.is_window_fetched`. -/
def is_window_fetched (c : CacheState) (ws we : String) : Bool :=
  c.fetched_windows.any (fun r => r.window_start == ws && r.window_end == we)

/-- The durable state after a crash at the end of an operation list: the
state produced by the operations up to and including the last `.commit`;
operations after it are pending and lost. -/
def durableAux : CacheState → CacheState → List DbOp → CacheState
  | durable, _, [] => durable
  | _, current, .commit :: rest => durableAux current current rest
  | durable, current, op :: rest => durableAux durable (applyOp current op) rest

def durableAfter (c : CacheState) (ops : List DbOp) : CacheState :=
  durableAux c c ops

/-! ### `LogCache.query_entries`

SQLite semantics used here: `LIKE` is case-insensitive for ASCII (the
default `PRAGMA case_sensitive_like = OFF`); a comparison or `LIKE` with a
`NULL` operand is `NULL`, which excludes the row; text comparison under the
default `BINARY` collation is lexicographic on the UTF-8 bytes, which for
whole strings agrees with Lean's lexicographic `String` order; a negative
`OFFSET` is treated as 0 and a negative `LIMIT` as no limit. -/

def asciiLower (c : Char) : Char :=
  if 65 ≤ c.toNat && c.toNat ≤ 90 then Char.ofNat (c.toNat + 32) else c

def lowerChars (s : String) : List Char := s.data.map asciiLower

def containsSub (needle : List Char) : List Char → Bool
  | [] => needle.isEmpty
  | c :: t => needle.isPrefixOf (c :: t) || containsSub needle t

/-- `column LIKE '%pat%'` on a TEXT column that may be `NULL`. -/
def likeContains (v : SqlVal) (pat : String) : Bool :=
  match v with
  | .nullV => false
  | .textV s => containsSub (lowerChars pat) (lowerChars s)

/-- `column LIKE '%pat%'` on a column this model knows to be a string. -/
def likeContainsStr (s pat : String) : Bool :=
  containsSub (lowerChars pat) (lowerChars s)

/-- A filter argument produces a WHERE condition only when it is truthy
(`if start:` etc.): `None` and `""` impose nothing. -/
def condHolds (o : Option String) (test : String → Bool) : Bool :=
  match o with
  | none => true
  | some s => if s == "" then true else test s

def rowMatches (r : EntryRow)
    (start end_ category action actor outcome source ip search :
      Option String) : Bool :=
  condHolds start (fun s => decide (s ≤ r.timestamp)) &&
  condHolds end_ (fun s => decide (r.timestamp ≤ s)) &&
  condHolds category (fun s => likeContains r.category s) &&
  condHolds action (fun s => likeContains r.action s) &&
  condHolds actor (fun s => likeContainsStr r.actor_id s) &&
  condHolds outcome (fun s => likeContainsStr r.outcome_type s) &&
  condHolds source (fun s => likeContains r.source s) &&
  condHolds ip (fun s => likeContainsStr r.client_ip s) &&
  condHolds search (fun s =>
    likeContainsStr r.raw_json s || likeContains r.action s ||
    likeContains r.category s || likeContainsStr r.actor_id s ||
    likeContainsStr r.environment s)

/-- `ORDER BY timestamp DESC`: row `a` may precede row `b` when
`b.timestamp ≤ a.timestamp`. -/
def tsDesc (a b : EntryRow) : Bool := decide (b.timestamp ≤ a.timestamp)

/-- `LogCache.query_entries`. In the source `limit` and `offset` are keyword
arguments defaulting to `limit=500, offset=0`; here they are explicit, and a
call that does not supply them passes `500` and `0`. -/
def query_entries (c : CacheState)
    (start end_ category action actor outcome source ip search :
      Option String) (limit offset : Int) : List EntryRow :=
  let sorted := (c.log_entries.filter (fun r =>
    rowMatches r start end_ category action actor outcome source ip
      search)).mergeSort tsDesc
  let rest := sorted.drop offset.toNat
  if limit < 0 then rest else rest.take limit.toNat

/-- C10: with the source's default paging arguments (`limit=500`,
`offset=0`), `query_entries` returns at most 500 rows, ordered by the
`timestamp` column descending, for every cache state and every combination
of the other filters. -/
theorem query_entries_default_limit (c : CacheState)
    (start end_ category action actor outcome source ip search :
      Option String) :
    (query_entries c start end_ category action actor outcome source ip
      search 500 0).length ≤ 500 ∧
    List.Pairwise (fun a b : EntryRow => b.timestamp ≤ a.timestamp)
      (query_entries c start end_ category action actor outcome source ip
        search 500 0) := by
  unfold query_entries
  dsimp only
  rw [if_neg (by decide)]
  simp only [show (0 : Int).toNat = 0 from rfl, List.drop_zero]
  constructor
  · rw [List.length_take]
    have : (500 : Int).toNat = 500 := by decide
    omega
  · have hsorted := @List.sorted_mergeSort EntryRow tsDesc
      (fun a b c hab hbc => by
        simp only [tsDesc, decide_eq_true_eq] at hab hbc ⊢
        exact le_trans hbc hab)
      (fun a b => by
        simp only [tsDesc, Bool.or_eq_true, decide_eq_true_eq]
        exact le_total b.timestamp a.timestamp)
      (c.log_entries.filter (fun r =>
        rowMatches r start end_ category action actor outcome source ip
          search))
    have hsub := List.take_sublist (500 : Int).toNat
      ((c.log_entries.filter (fun r =>
        rowMatches r start end_ category action actor outcome source ip
          search)).mergeSort tsDesc)
    refine List.Pairwise.sublist hsub (hsorted.imp ?_)
    intro a b hab
    simpa [tsDesc, decide_eq_true_eq] using hab

theorem durableAux_no_commit :
    ∀ (ops : List DbOp), (∀ op ∈ ops, op ≠ DbOp.commit) →
      ∀ d cur, durableAux d cur ops = d := by
  intro ops
  induction ops with
  | nil => intro _ d cur; rfl
  | cons op rest ih =>
      intro h d cur
      cases op with
      | commit => exact absurd rfl (h _ (List.mem_cons_self _ _))
      | insertEntry r =>
          exact ih (fun o ho => h o (List.mem_cons_of_mem _ ho)) d _
      | replaceWindow w =>
          exact ih (fun o ho => h o (List.mem_cons_of_mem _ ho)) d _

theorem durableAux_append :
    ∀ (ops : List DbOp), (∀ op ∈ ops, op ≠ DbOp.commit) →
      ∀ d cur tail,
        durableAux d cur (ops ++ tail) = durableAux d (ops.foldl applyOp cur) tail := by
  intro ops
  induction ops with
  | nil => intro _ d cur tail; rfl
  | cons op rest ih =>
      intro h d cur tail
      cases op with
      | commit => exact absurd rfl (h _ (List.mem_cons_self _ _))
      | insertEntry r =>
          exact ih (fun o ho => h o (List.mem_cons_of_mem _ ho)) d _ tail
      | replaceWindow w =>
          exact ih (fun o ho => h o (List.mem_cons_of_mem _ ho)) d _ tail

/-- Every operation the per-entry loop issues is an `INSERT OR IGNORE`;
the ledger update and the commit come only after the loop. -/
theorem storeEntriesT_ops_insert (ws : String) :
    ∀ (es : List ParsedEntry) (c : CacheState),
      ∀ op ∈ (storeEntriesT ws c es).1, ∃ r, op = DbOp.insertEntry r := by
  intro es
  induction es with
  | nil => intro c op hop; cases hop
  | cons pe rest ih =>
      intro c op hop
      rw [storeEntriesT] at hop
      cases hea : entryAction ws pe with
      | error e => rw [hea] at hop; cases hop
      | ok o =>
          cases o with
          | none => rw [hea] at hop; exact ih c op hop
          | some row =>
              rw [hea] at hop
              dsimp only at hop
              rcases List.mem_cons.mp hop with h | h
              · exact ⟨row, h⟩
              · exact ih _ op h

/-- On the success path, replaying the issued inserts onto the initial
state reproduces the loop's final state. -/
theorem storeEntriesT_foldl (ws : String) :
    ∀ (es : List ParsedEntry) (c c1 : CacheState) (n : Nat),
      (storeEntriesT ws c es).2 = .ok (n, c1) →
      (storeEntriesT ws c es).1.foldl applyOp c = c1 := by
  intro es
  induction es with
  | nil =>
      intro c c1 n h
      injection h with h
      exact congrArg Prod.snd h
  | cons pe rest ih =>
      intro c c1 n h
      cases hea : entryAction ws pe with
      | error e =>
          rw [storeEntriesT, hea] at h
          dsimp only at h
          cases h
      | ok o =>
          cases o with
          | none =>
              rw [storeEntriesT, hea] at h ⊢
              dsimp only at h ⊢
              exact ih c c1 n h
          | some row =>
              rw [storeEntriesT, hea] at h ⊢
              dsimp only at h ⊢
              rw [List.foldl_cons]
              by_cases hdup : c.log_entries.any (fun r => r.id == row.id) = true
              · rw [if_pos hdup] at h
                exact ih _ c1 n h
              · rw [if_neg hdup] at h
                cases hres : (storeEntriesT ws (applyOp c (.insertEntry row)) rest).2 with
                | error e => rw [hres] at h; cases h
                | ok p =>
                    rw [hres] at h
                    injection h with h
                    have hc1 : p.2 = c1 := congrArg Prod.snd h
                    exact ih _ c1 p.1 (by rw [hres, ← hc1])

/-- C3: `store_window` is atomic. The durable state after a crash at any
strict prefix of the operation trace is the original state (no record
insert and no ledger update has committed); on an uncaught exception the
whole trace leaves the durable state unchanged (the single `conn.commit()`
is never reached); on success the final commit makes the entire batch —
all inserts plus the `fetched_windows` update — durable at once, and only
then is the window recorded as fetched. -/
theorem store_window_atomic (c : CacheState) (ws we now : String)
    (entries : List ParsedEntry) (fc : Int) :
    (∀ p, p <+: (store_windowT c ws we entries fc now).1 →
      p.length < (store_windowT c ws we entries fc now).1.length →
      durableAfter c p = c) ∧
    (∀ e, (store_windowT c ws we entries fc now).2 = .error e →
      durableAfter c (store_windowT c ws we entries fc now).1 = c) ∧
    (∀ n c1, (store_windowT c ws we entries fc now).2 = .ok (n, c1) →
      durableAfter c (store_windowT c ws we entries fc now).1 = c1 ∧
      is_window_fetched c1 ws we = true) := by
  have hins := storeEntriesT_ops_insert ws entries c
  have hnc : ∀ op ∈ (storeEntriesT ws c entries).1, op ≠ DbOp.commit := by
    intro op hop
    rcases hins op hop with ⟨r, rfl⟩
    intro h
    cases h
  unfold store_windowT
  cases hse : storeEntriesT ws c entries with
  | mk ops res =>
      have hnc' : ∀ op ∈ ops, op ≠ DbOp.commit := by
        intro op hop; exact hnc op (by rw [hse]; exact hop)
      cases res with
      | error e =>
          dsimp only
          refine ⟨?_, ?_, ?_⟩
          · intro p hp _
            refine durableAux_no_commit p ?_ c c
            intro op hop
            exact hnc' op (hp.sublist.subset hop)
          · intro e' _
            exact durableAux_no_commit ops hnc' c c
          · intro n c1 h
            cases h
      | ok nc =>
          dsimp only
          refine ⟨?_, ?_, ?_⟩
          · intro p hp hlen
            have hre : ops ++
                [DbOp.replaceWindow ⟨ws, we, now, fc, Int.ofNat entries.length⟩,
                  DbOp.commit] =
                (ops ++ [DbOp.replaceWindow
                  ⟨ws, we, now, fc, Int.ofNat entries.length⟩]) ++ [DbOp.commit] := by
              rw [List.append_assoc]
              rfl
            have hp2 : p <+: ops ++
                [DbOp.replaceWindow ⟨ws, we, now, fc, Int.ofNat entries.length⟩] := by
              rw [hre] at hp hlen
              rcases List.prefix_concat_iff.mp hp with h1 | h1
              · exfalso
                rw [h1] at hlen
                simp [List.length_append] at hlen
              · exact h1
            refine durableAux_no_commit p ?_ c c
            intro op hop
            have hmem := hp2.sublist.subset hop
            rcases List.mem_append.mp hmem with h | h
            · exact hnc' op h
            · rcases List.mem_singleton.mp h with rfl
              intro h; cases h
          · intro e h; cases h
          · intro n c1 h
            injection h with h
            have hfold := storeEntriesT_foldl ws entries c nc.2 nc.1
              (by rw [hse])
            rw [hse] at hfold
            dsimp only at hfold
            have hc1 : applyOp (applyOp nc.2 (DbOp.replaceWindow
                ⟨ws, we, now, fc, Int.ofNat entries.length⟩)) DbOp.commit = c1 :=
              congrArg Prod.snd h
            unfold durableAfter
            rw [durableAux_append ops hnc' c c]
            rw [hfold, ← hc1]
            constructor
            · rfl
            · unfold is_window_fetched applyOp
              simp

/-! ### Re-storing a window (claim C2) -/

def hasEntryId (c : CacheState) (i : String) : Bool :=
  c.log_entries.any (fun r => r.id == i)

theorem hasEntryId_mono {c c1 : CacheState} {i : String}
    (hpre : c.log_entries <+: c1.log_entries) (h : hasEntryId c i = true) :
    hasEntryId c1 i = true := by
  rcases List.any_eq_true.mp h with ⟨r, hr, hri⟩
  exact List.any_eq_true.mpr ⟨r, hpre.sublist.subset hr, hri⟩

theorem hasEntryId_insert (c : CacheState) (row : EntryRow) :
    hasEntryId (applyOp c (.insertEntry row)) row.id = true := by
  unfold hasEntryId applyOp
  dsimp only
  by_cases h : c.log_entries.any (fun r => r.id == row.id) = true
  · rw [if_pos h]
    exact h
  · rw [if_neg h]
    dsimp only
    rw [List.any_append]
    simp

theorem applyOp_insert_present (c : CacheState) (row : EntryRow)
    (h : hasEntryId c row.id = true) : applyOp c (.insertEntry row) = c := by
  unfold hasEntryId at h
  unfold applyOp
  dsimp only
  rw [if_pos h]

theorem applyOp_insert_prefix (c : CacheState) (row : EntryRow) :
    c.log_entries <+: (applyOp c (.insertEntry row)).log_entries ∧
    (applyOp c (.insertEntry row)).fetched_windows = c.fetched_windows := by
  unfold applyOp
  dsimp only
  by_cases h : c.log_entries.any (fun r => r.id == row.id) = true
  · rw [if_pos h]
    exact ⟨List.prefix_rfl, rfl⟩
  · rw [if_neg h]
    exact ⟨List.prefix_append _ _, rfl⟩

/-- The per-entry loop only appends entry rows and leaves `fetched_windows`
alone. -/
theorem storeEntriesT_log_grow (ws : String) :
    ∀ (es : List ParsedEntry) (c c1 : CacheState) (n : Nat),
      (storeEntriesT ws c es).2 = .ok (n, c1) →
      c.log_entries <+: c1.log_entries ∧
      c1.fetched_windows = c.fetched_windows := by
  intro es
  induction es with
  | nil =>
      intro c c1 n h
      injection h with h
      have hc : c = c1 := congrArg Prod.snd h
      rw [← hc]
      exact ⟨List.prefix_rfl, rfl⟩
  | cons pe rest ih =>
      intro c c1 n h
      cases hea : entryAction ws pe with
      | error e =>
          rw [storeEntriesT, hea] at h
          dsimp only at h
          cases h
      | ok o =>
          cases o with
          | none =>
              rw [storeEntriesT, hea] at h
              dsimp only at h
              exact ih c c1 n h
          | some row =>
              rw [storeEntriesT, hea] at h
              dsimp only at h
              have step := applyOp_insert_prefix c row
              by_cases hdup : c.log_entries.any (fun r => r.id == row.id) = true
              · rw [if_pos hdup] at h
                have := ih _ c1 n h
                exact ⟨step.1.trans this.1, this.2.trans step.2⟩
              · rw [if_neg hdup] at h
                cases hres : (storeEntriesT ws
                    (applyOp c (.insertEntry row)) rest).2 with
                | error e =>
                    rw [hres] at h
                    cases h
                | ok p =>
                    rw [hres] at h
                    injection h with h
                    have hc1 : p.2 = c1 := congrArg Prod.snd h
                    have := ih _ p.2 p.1 hres
                    rw [hc1] at this
                    exact ⟨step.1.trans this.1, this.2.trans step.2⟩

/-- After a successful loop, every row any entry of the batch produces is
present in the final state. -/
theorem storeEntriesT_complete (ws : String) :
    ∀ (es : List ParsedEntry) (c c1 : CacheState) (n : Nat),
      (storeEntriesT ws c es).2 = .ok (n, c1) →
      ∀ pe ∈ es, ∀ row, entryAction ws pe = .ok (some row) →
        hasEntryId c1 row.id = true := by
  intro es
  induction es with
  | nil =>
      intro c c1 n _ pe hpe
      cases hpe
  | cons pe0 rest ih =>
      intro c c1 n h pe hpe row hrow
      cases hea : entryAction ws pe0 with
      | error e =>
          rw [storeEntriesT, hea] at h
          dsimp only at h
          cases h
      | ok o =>
          cases o with
          | none =>
              rw [storeEntriesT, hea] at h
              dsimp only at h
              rcases List.mem_cons.mp hpe with rfl | hpe'
              · rw [hea] at hrow
                cases hrow
              · exact ih c c1 n h pe hpe' row hrow
          | some row0 =>
              rw [storeEntriesT, hea] at h
              dsimp only at h
              have h2 : (storeEntriesT ws
                  (applyOp c (.insertEntry row0)) rest).2 = .ok (n, c1) ∨
                  ∃ p, (storeEntriesT ws
                    (applyOp c (.insertEntry row0)) rest).2 = .ok p ∧
                    p.2 = c1 := by
                by_cases hdup : c.log_entries.any (fun r => r.id == row0.id) = true
                · rw [if_pos hdup] at h
                  exact .inl h
                · rw [if_neg hdup] at h
                  cases hres : (storeEntriesT ws
                      (applyOp c (.insertEntry row0)) rest).2 with
                  | error e =>
                      rw [hres] at h
                      cases h
                  | ok p =>
                      rw [hres] at h
                      injection h with h
                      exact .inr ⟨p, rfl, congrArg Prod.snd h⟩
              have hrec : ∃ p : Nat × CacheState, (storeEntriesT ws
                  (applyOp c (.insertEntry row0)) rest).2 = .ok p ∧
                  p.2 = c1 := by
                rcases h2 with h2 | h2
                · exact ⟨(n, c1), h2, rfl⟩
                · exact h2
              rcases hrec with ⟨p, hp, hpc⟩
              rcases List.mem_cons.mp hpe with rfl | hpe'
              · rw [hea] at hrow
                injection hrow with hrow
                injection hrow with hrow
                subst hrow
                have hgrow := storeEntriesT_log_grow ws rest _ p.2 p.1
                  (by rw [hp])
                have hstart := hasEntryId_insert c row0
                exact hpc ▸ hasEntryId_mono hgrow.1 hstart
              · exact hpc ▸ ih _ p.2 p.1 (by rw [hp]) pe hpe' row hrow

/-- A successful loop means no entry of the batch raises the uncaught
`AttributeError`. -/
theorem storeEntriesT_no_error (ws : String) :
    ∀ (es : List ParsedEntry) (c c1 : CacheState) (n : Nat),
      (storeEntriesT ws c es).2 = .ok (n, c1) →
      ∀ pe ∈ es, ∀ e, entryAction ws pe ≠ .error e := by
  intro es
  induction es with
  | nil =>
      intro c c1 n _ pe hpe
      cases hpe
  | cons pe0 rest ih =>
      intro c c1 n h pe hpe e
      cases hea : entryAction ws pe0 with
      | error e0 =>
          rw [storeEntriesT, hea] at h
          dsimp only at h
          cases h
      | ok o =>
          rcases List.mem_cons.mp hpe with rfl | hpe'
          · rw [hea]
            intro hcon
            cases hcon
          · cases o with
            | none =>
                rw [storeEntriesT, hea] at h
                dsimp only at h
                exact ih c c1 n h pe hpe' e
            | some row0 =>
                rw [storeEntriesT, hea] at h
                dsimp only at h
                by_cases hdup : c.log_entries.any
                    (fun r => r.id == row0.id) = true
                · rw [if_pos hdup] at h
                  exact ih _ c1 n h pe hpe' e
                · rw [if_neg hdup] at h
                  cases hres : (storeEntriesT ws
                      (applyOp c (.insertEntry row0)) rest).2 with
                  | error e1 =>
                      rw [hres] at h
                      cases h
                  | ok p =>
                      exact ih _ p.2 p.1 (by rw [hres]) pe hpe' e

/-- Re-running the loop over a batch whose rows are all present (and which
raises nowhere) inserts nothing and leaves the state untouched. -/
theorem storeEntriesT_restore (ws : String) :
    ∀ (es : List ParsedEntry) (c : CacheState),
      (∀ pe ∈ es, ∀ e, entryAction ws pe ≠ .error e) →
      (∀ pe ∈ es, ∀ row, entryAction ws pe = .ok (some row) →
        hasEntryId c row.id = true) →
      (storeEntriesT ws c es).2 = .ok (0, c) := by
  intro es
  induction es with
  | nil => intro c _ _; rfl
  | cons pe rest ih =>
      intro c h1 h2
      cases hea : entryAction ws pe with
      | error e => exact absurd hea (h1 pe (List.mem_cons_self _ _) e)
      | ok o =>
          cases o with
          | none =>
              rw [storeEntriesT, hea]
              dsimp only
              exact ih c (fun q hq => h1 q (List.mem_cons_of_mem _ hq))
                (fun q hq => h2 q (List.mem_cons_of_mem _ hq))
          | some row =>
              have hpres := h2 pe (List.mem_cons_self _ _) row hea
              rw [storeEntriesT, hea]
              dsimp only
              rw [applyOp_insert_present c row hpres]
              unfold hasEntryId at hpres
              rw [if_pos hpres]
              exact ih c (fun q hq => h1 q (List.mem_cons_of_mem _ hq))
                (fun q hq => h2 q (List.mem_cons_of_mem _ hq))

/-- C2: a second `store_window` with the same window boundaries and the same
entries returns 0 newly-inserted records and leaves the stored entry rows —
in particular their count — unchanged: each row's `id` is the deterministic
`_entry_id` hash of the entry's exact `raw_json`, and `INSERT OR IGNORE`
inserts only if absent. -/
theorem store_window_idempotent (c : CacheState) (ws we : String)
    (entries : List ParsedEntry) (fc fc2 : Int) (now now2 : String)
    (n1 : Nat) (c1 : CacheState)
    (h : store_window c ws we entries fc now = .ok (n1, c1)) :
    ∃ c2, store_window c1 ws we entries fc2 now2 = .ok (0, c2) ∧
      c2.log_entries = c1.log_entries := by
  unfold store_window store_windowT at h
  cases hse : storeEntriesT ws c entries with
  | mk ops res =>
      rw [hse] at h
      cases res with
      | error e => cases h
      | ok nc =>
          dsimp only at h
          injection h with h
          have hc1 : applyOp (applyOp nc.2 (DbOp.replaceWindow
              ⟨ws, we, now, fc, Int.ofNat entries.length⟩)) DbOp.commit = c1 :=
            congrArg Prod.snd h
          have hlog : c1.log_entries = nc.2.log_entries := by
            rw [← hc1]
            rfl
          have hcomplete := storeEntriesT_complete ws entries c nc.2 nc.1
            (by rw [hse])
          have hnoerr := storeEntriesT_no_error ws entries c nc.2 nc.1
            (by rw [hse])
          have hpres : ∀ pe ∈ entries, ∀ row,
              entryAction ws pe = .ok (some row) →
              hasEntryId c1 row.id = true := by
            intro pe hpe row hrow
            have := hcomplete pe hpe row hrow
            unfold hasEntryId at this ⊢
            rw [hlog]
            exact this
          have hres2 := storeEntriesT_restore ws entries c1 hnoerr hpres
          refine ⟨applyOp (applyOp c1 (DbOp.replaceWindow
              ⟨ws, we, now2, fc2, Int.ofNat entries.length⟩)) DbOp.commit,
            ?_, rfl⟩
          unfold store_window store_windowT
          cases hse2 : storeEntriesT ws c1 entries with
          | mk ops2 res2 =>
              rw [hse2] at hres2
              dsimp only at hres2
              rw [hres2]

set_option maxRecDepth 1000000 in
theorem store_window_idempotent_witness :
    ∃ c2, store_window
        ⟨[⟨"44136fa355b3678a", "\x7b\x7d", "", "", .textV "", .textV "",
            .textV "", .textV "", "", "", "", "", "", "", "", "", "W0"⟩],
          [⟨"W0", "W1", "T1", 1, 1⟩]⟩
        "W0" "W1" [⟨.obj [], "\x7b\x7d"⟩] 2 "T2" = .ok (0, c2) ∧
      c2.log_entries = (⟨[⟨"44136fa355b3678a", "\x7b\x7d", "", "", .textV "",
          .textV "", .textV "", .textV "", "", "", "", "", "", "", "", "",
          "W0"⟩], [⟨"W0", "W1", "T1", 1, 1⟩]⟩ : CacheState).log_entries :=
  store_window_idempotent ⟨[], []⟩ "W0" "W1" [⟨.obj [], "\x7b\x7d"⟩] 1 2
    "T1" "T2" 1 _ (by rfl)

/-- C4 (amended): for a payload that parses as a JSON object, field
extraction itself never fails the record — the uncaught `AttributeError`
can only arise for non-object payloads — and a nested source that is
missing or `null` degrades to the empty string: a missing or `null` key
ends the `_safe_get` walk with the default `""`, and if the top-level
`"object"` is missing or `null` all eight `_safe_get`-derived indexed
fields are `""`. (The original claim's stronger reading is false: a nested
source of a different type than expected yields its `str()` rendering
rather than `""`, and a record whose top-level `date` or `timestamp` is
`null` fails the column's `NOT NULL` constraint and is skipped rather than
stored — see the counterexample.) -/
theorem extract_fields_degrades (ws : String) :
    (∀ (pe : ParsedEntry) (fs : List (String × Json)),
      jsonLoads pe.raw_json = some (.obj fs) →
      ∃ o, entryAction ws pe = .ok o) ∧
    (∀ (fs : List (String × Json)) (key : String) (rest : List String),
      (jsonGet fs key = none ∨ jsonGet fs key = some .null) →
      _safe_get (.obj fs) (key :: rest) "" = "") ∧
    (∀ fs : List (String × Json),
      (jsonGet fs "object" = none ∨ jsonGet fs "object" = some .null) →
      (_extract_fields (.obj fs)).outcome_type = "" ∧
      (_extract_fields (.obj fs)).actor_type = "" ∧
      (_extract_fields (.obj fs)).actor_id = "" ∧
      (_extract_fields (.obj fs)).environment = "" ∧
      (_extract_fields (.obj fs)).client_ip = "" ∧
      (_extract_fields (.obj fs)).host = "" ∧
      (_extract_fields (.obj fs)).session_id = "" ∧
      (_extract_fields (.obj fs)).object_type = "") := by
  refine ⟨?_, ?_, ?_⟩
  · intro pe fs h
    unfold entryAction
    rw [h]
    exact ⟨_, rfl⟩
  · intro fs key rest h
    rw [_safe_get]
    rcases h with h | h <;> rw [h]
  · intro fs h
    simp only [_extract_fields, dictGet]
    rcases h with h | h <;>
      rw [h] <;>
      simp [pyFalsy, _safe_get, jsonGet, pyOrStr]

/-- Counterexample to C4 as stated: the payload
`{"date":null,"object":{"outcome":{"type":123}}}` parses as a JSON object,
yet the differently-typed nested `outcome.type` is extracted as `"123"`
(the `str()` of the value), not as the empty string, and the record is not
stored at all: the `null` top-level `date` violates the `date TEXT NOT
NULL` column, the insert raises a caught `sqlite3.Error`, and
`store_window` reports 0 inserted records while still recording the
window. -/
theorem extract_fields_degrades_counterexample :
    (_extract_fields (.obj [("date", Json.null),
      ("object", .obj [("outcome", .obj [("type", .num 123)])])])).outcome_type
      = "123" ∧
    store_window ⟨[], []⟩ "W0" "W1"
      [⟨.obj [("date", Json.null),
          ("object", .obj [("outcome", .obj [("type", .num 123)])])],
        "\x7b\"date\":null,\"object\":\x7b\"outcome\":\x7b\"type\":123\x7d\x7d\x7d"⟩]
      1 "T0"
      = .ok (0, ⟨[], [⟨"W0", "W1", "T0", 1, 1⟩]⟩) := by
  constructor
  · simp [_extract_fields, dictGet, jsonGet, pyFalsy, pyOrStr, _safe_get,
      pyStr, pyReprChars, intChars, natChars, digitChar]
  · simp [store_window, store_windowT, storeEntriesT, entryAction, jsonLoads,
      parseValue, parseMembers, parseElems, skipWs, parseJString,
      parseStringBody, escStep, parseNumber, parseNatNumber, isDigitChar,
      digitsToNat, isJsonWs, dictInsert, decodeU, hexVal, mkEntryRow,
      bindVal, _extract_fields, dictGet, jsonGet, pyFalsy, pyOrStr,
      _safe_get, pyStr, pyReprChars, intChars, natChars, digitChar,
      applyOp]

/-! ### The orchestrator (`fetcher.fetch_audit_logs`)

External effects are oracle functions: `locations` is
`AuditLogClient.fetch_log_locations` for a window (its `.error` is any
exception caught by the `except Exception` around that call), `download` is
`AuditLogClient.download_log_files` on the resolved locations, the codec
and validation oracles feed `parse_log_files`, and `now` is the wall-clock
string `store_window` writes into `fetched_windows`. Exceptions from
`parse_log_files` or `store_window` are not caught by the loop and escape
as `.error`. -/

structure FetchOracle where
  locations : String → String → Except String (List String)
  download : List String → Except String (List (List Nat))
  gz : List Nat → GzipResult
  zp : List Nat → ZipResult
  utf8 : List Nat → Option String
  validate : Json → Bool
  now : String

structure FetchProgress where
  total_windows : Nat
  completed_windows : Nat
  skipped_windows : Nat
  total_files : Nat
  downloaded_files : Nat
  total_entries : Nat
  new_entries : Nat
  errors : List String
deriving DecidableEq, Repr

/-- The per-window loop of `fetch_audit_logs`. -/
def fetchLoop (o : FetchOracle) :
    CacheState → FetchProgress → List (String × String) →
      Except String (FetchProgress × CacheState)
  | c, p, [] => .ok (p, c)
  | c, p, (ws, we) :: rest =>
      if is_window_fetched c ws we then
        fetchLoop o c { p with skipped_windows := p.skipped_windows + 1,
                               completed_windows := p.completed_windows + 1 }
          rest
      else
        match o.locations ws we with
        | .error e =>
            fetchLoop o c { p with errors := p.errors ++
              ["Failed to fetch locations for " ++ ws ++ ": " ++ e] } rest
        | .ok locs =>
            if locs.isEmpty then
              match store_window c ws we [] 0 o.now with
              | .error e => .error e
              | .ok (_, c1) =>
                  fetchLoop o c1
                    { p with total_files := p.total_files + locs.length,
                             completed_windows := p.completed_windows + 1 }
                    rest
            else
              match o.download locs with
              | .error e =>
                  fetchLoop o c
                    { p with total_files := p.total_files + locs.length,
                             errors := p.errors ++
                      ["Failed downloading files for " ++ ws ++ ": " ++ e] }
                    rest
              | .ok files =>
                  match parse_log_files o.gz o.zp o.utf8 o.validate files with
                  | .error e => .error e
                  | .ok entries =>
                      match store_window c ws we entries
                          (Int.ofNat locs.length) o.now with
                      | .error e => .error e
                      | .ok (n, c1) =>
                          fetchLoop o c1
                            { p with
                              total_files := p.total_files + locs.length,
                              downloaded_files :=
                                p.downloaded_files + locs.length,
                              total_entries :=
                                p.total_entries + entries.length,
                              new_entries := p.new_entries + n,
                              completed_windows := p.completed_windows + 1 }
                            rest

/-- `fetcher.fetch_audit_logs` over an already-generated window list. -/
def fetch_audit_logs (o : FetchOracle) (c : CacheState)
    (windows : List (String × String)) :
    Except String (FetchProgress × CacheState) :=
  fetchLoop o c ⟨windows.length, 0, 0, 0, 0, 0, 0, []⟩ windows

theorem fetchLoop_accounting (o : FetchOracle) :
    ∀ (windows : List (String × String)) (c : CacheState)
      (p pfin : FetchProgress) (c1 : CacheState),
      fetchLoop o c p windows = .ok (pfin, c1) →
      pfin.completed_windows + pfin.errors.length =
        p.completed_windows + p.errors.length + windows.length := by
  intro windows
  induction windows with
  | nil =>
      intro c p pfin c1 h
      injection h with h
      have h1 : p = pfin := congrArg Prod.fst h
      rw [← h1]
      simp
  | cons wpair rest ih =>
      obtain ⟨ws, we⟩ := wpair
      intro c p pfin c1 h
      by_cases hf : is_window_fetched c ws we = true
      · rw [fetchLoop, if_pos hf] at h
        have := ih _ _ _ _ h
        simp at this ⊢
        omega
      · cases hloc : o.locations ws we with
        | error e =>
            rw [fetchLoop, if_neg hf, hloc] at h
            dsimp only at h
            have := ih _ _ _ _ h
            simp at this ⊢
            omega
        | ok locs =>
            by_cases hemp : locs.isEmpty = true
            · cases hst : store_window c ws we [] 0 o.now with
              | error e =>
                  rw [fetchLoop, if_neg hf, hloc] at h
                  dsimp only at h
                  rw [if_pos hemp, hst] at h
                  cases h
              | ok pr =>
                  rw [fetchLoop, if_neg hf, hloc] at h
                  dsimp only at h
                  rw [if_pos hemp, hst] at h
                  dsimp only at h
                  have := ih _ _ _ _ h
                  simp at this ⊢
                  omega
            · cases hdl : o.download locs with
              | error e =>
                  rw [fetchLoop, if_neg hf, hloc] at h
                  dsimp only at h
                  rw [if_neg hemp, hdl] at h
                  dsimp only at h
                  have := ih _ _ _ _ h
                  simp at this ⊢
                  omega
              | ok files =>
                  cases hpf : parse_log_files o.gz o.zp o.utf8 o.validate
                      files with
                  | error e =>
                      rw [fetchLoop, if_neg hf, hloc] at h
                      dsimp only at h
                      rw [if_neg hemp, hdl] at h
                      dsimp only at h
                      rw [hpf] at h
                      dsimp only at h
                      cases h
                  | ok entries =>
                      cases hst : store_window c ws we entries
                          (Int.ofNat locs.length) o.now with
                      | error e =>
                          rw [fetchLoop, if_neg hf, hloc] at h
                          dsimp only at h
                          rw [if_neg hemp, hdl] at h
                          dsimp only at h
                          rw [hpf] at h
                          dsimp only at h
                          rw [hst] at h
                          dsimp only at h
                          cases h
                      | ok pr =>
                          rw [fetchLoop, if_neg hf, hloc] at h
                          dsimp only at h
                          rw [if_neg hemp, hdl] at h
                          dsimp only at h
                          rw [hpf] at h
                          dsimp only at h
                          rw [hst] at h
                          dsimp only at h
                          have := ih _ _ _ _ h
                          simp at this ⊢
                          omega

/-- The oracle of the concrete 3-window scenario: window `("A", "B")`
resolves to one file whose content decompresses (via gzip) to the NDJSON
text `"{}"`; window `("C", "D")`'s location-resolution call raises
`"boom"`; window `("E", "F")` resolves to an empty location list. -/
def scenOracle : FetchOracle where
  locations := fun ws _ =>
    if ws == "A" then .ok ["f1"]
    else if ws == "C" then .error "boom"
    else .ok []
  download := fun _ => .ok [[1]]
  gz := fun _ => .ok "\x7b\x7d"
  zp := fun _ => .fail
  utf8 := fun _ => none
  validate := fun _ => true
  now := "T0"

/-- C5: a failed location-resolution or download step for one window is
recorded as one error message and the loop advances to the next window.
First conjunct: whenever the orchestrator returns normally, every window
was accounted for either as completed (fetched, empty, or skipped) or as
exactly one recorded error — so a window's failure never aborts the
others. Second conjunct: in the concrete 3-window run where only window
2's location-resolution call raises, the aggregate result reports 2
completed windows and exactly the one error, windows 1 and 3 are recorded
as fetched (window 1's entry actually stored), and window 2 is not. -/
theorem fetch_partial_failure_isolated :
    (∀ (o : FetchOracle) (c c1 : CacheState)
      (windows : List (String × String)) (p : FetchProgress),
      fetch_audit_logs o c windows = .ok (p, c1) →
      p.completed_windows + p.errors.length = windows.length) ∧
    (∃ p c1, fetch_audit_logs scenOracle ⟨[], []⟩
        [("A", "B"), ("C", "D"), ("E", "F")] = .ok (p, c1) ∧
      p.completed_windows = 2 ∧
      p.errors = ["Failed to fetch locations for C: boom"] ∧
      p.new_entries = 1 ∧
      is_window_fetched c1 "A" "B" = true ∧
      is_window_fetched c1 "C" "D" = false ∧
      is_window_fetched c1 "E" "F" = true) := by
  constructor
  · intro o c c1 windows p h
    have := fetchLoop_accounting o windows c _ p c1 h
    simpa using this
  · have hj : jsonLoads "\x7b\x7d" = some (Json.obj []) := by
      simp [jsonLoads, parseValue, parseMembers, skipWs, isJsonWs]
    have hwf : wellFormed (Json.obj []) = true := by
      simp [wellFormed, wellFormedMembers, keysNodup]
    have hjd : jsonLoads (dumps (Json.obj [])) = some (Json.obj []) :=
      jsonLoads_dumps _ hwf
    refine ⟨⟨3, 2, 0, 1, 1, 1, 1,
        ["Failed to fetch locations for C: boom"]⟩,
      ⟨[⟨_entry_id (dumps (Json.obj [])), dumps (Json.obj []), "", "",
          .textV "", .textV "", .textV "", .textV "", "", "", "", "", "",
          "", "", "", "A"⟩],
        [⟨"A", "B", "T0", 1, 1⟩, ⟨"E", "F", "T0", 0, 0⟩]⟩,
      ?_, rfl, rfl, rfl, rfl, rfl, rfl⟩
    simp [fetch_audit_logs, fetchLoop, scenOracle, is_window_fetched,
      parse_log_files, parse_log_file, decompress, looksLikeJson,
      parse_ndjson, ndjsonLines, pySplitlines, pySplitlinesAux, pyStrip,
      isPyWs, hj, hjd, store_window, store_windowT, storeEntriesT,
      entryAction, mkEntryRow, bindVal, _extract_fields, dictGet, jsonGet,
      pyFalsy, pyOrStr, _safe_get, applyOp, Except.map]

/-- C7: a window whose resolved file-location list is empty is still
recorded as fetched, with zero files and zero records, before the loop
advances; and any window already recorded as fetched is skipped (counted
as completed without re-fetching) by a later run. -/
theorem empty_window_recorded (o : FetchOracle) (c : CacheState)
    (ws we : String) (p : FetchProgress) (rest : List (String × String))
    (hnf : is_window_fetched c ws we = false)
    (hloc : o.locations ws we = .ok []) :
    (∃ c1, fetchLoop o c p ((ws, we) :: rest) =
        fetchLoop o c1
          { p with total_files := p.total_files,
                   completed_windows := p.completed_windows + 1 } rest ∧
      is_window_fetched c1 ws we = true ∧
      (⟨ws, we, o.now, 0, 0⟩ : WindowRow) ∈ c1.fetched_windows) ∧
    (∀ (c0 : CacheState) (p0 : FetchProgress)
      (rest0 : List (String × String)),
      is_window_fetched c0 ws we = true →
      fetchLoop o c0 p0 ((ws, we) :: rest0) =
        fetchLoop o c0
          { p0 with skipped_windows := p0.skipped_windows + 1,
                    completed_windows := p0.completed_windows + 1 } rest0) := by
  constructor
  · refine ⟨applyOp (applyOp c (DbOp.replaceWindow ⟨ws, we, o.now, 0, 0⟩))
      DbOp.commit, ?_, ?_, ?_⟩
    · rw [fetchLoop, if_neg (by rw [hnf]; exact Bool.false_ne_true), hloc]
      rfl
    · unfold is_window_fetched applyOp
      simp
    · unfold applyOp
      dsimp only
      exact List.mem_append_right _ (List.mem_singleton.mpr rfl)
  · intro c0 p0 rest0 hf
    rw [fetchLoop, if_pos hf]


theorem empty_window_recorded_witness :
    (∃ c1,
      fetchLoop ⟨fun _ _ => .ok [], fun _ => .error "x", fun _ => .fail,
          fun _ => .fail, fun _ => none, fun _ => true, "T"⟩
        ⟨[], []⟩ ⟨1, 0, 0, 0, 0, 0, 0, []⟩ [("W0", "W1")] =
      fetchLoop ⟨fun _ _ => .ok [], fun _ => .error "x", fun _ => .fail,
          fun _ => .fail, fun _ => none, fun _ => true, "T"⟩
        c1 ⟨1, 1, 0, 0, 0, 0, 0, []⟩ [] ∧
      is_window_fetched c1 "W0" "W1" = true ∧
      (⟨"W0", "W1", "T", 0, 0⟩ : WindowRow) ∈ c1.fetched_windows) ∧
    (∀ (c0 : CacheState) (p0 : FetchProgress)
      (rest0 : List (String × String)),
      is_window_fetched c0 "W0" "W1" = true →
      fetchLoop ⟨fun _ _ => .ok [], fun _ => .error "x", fun _ => .fail,
          fun _ => .fail, fun _ => none, fun _ => true, "T"⟩
        c0 p0 (("W0", "W1") :: rest0) =
      fetchLoop ⟨fun _ _ => .ok [], fun _ => .error "x", fun _ => .fail,
          fun _ => .fail, fun _ => none, fun _ => true, "T"⟩
        c0 { p0 with skipped_windows := p0.skipped_windows + 1,
                     completed_windows := p0.completed_windows + 1 } rest0) :=
  empty_window_recorded
    ⟨fun _ _ => .ok [], fun _ => .error "x", fun _ => .fail,
      fun _ => .fail, fun _ => none, fun _ => true, "T"⟩
    ⟨[], []⟩ "W0" "W1" ⟨1, 0, 0, 0, 0, 0, 0, []⟩ [] (by rfl) (by rfl)

/-- `export._to_json`: each row contributes `json.loads(row["raw_json"])`
when that parses, else the row record itself (rendered by `fallback`,
which models `json.dumps` on the row dict). -/
def _to_json (fallback : EntryRow → Json) (rows : List EntryRow) :
    List Json :=
  rows.map (fun r => match jsonLoads r.raw_json with
    | some j => j
    | none => fallback r)

theorem mkEntryRow_fields (eid raw ws : String) (f : ExtractedFields)
    (row : EntryRow) (h : mkEntryRow eid raw ws f = some row) :
    row.id = eid ∧ row.raw_json = raw := by
  simp only [mkEntryRow, bind, Option.bind_eq_some] at h
  obtain ⟨dv, hdv, tv, htv, ev, hev, cv, hcv, av, hav, sv, hsv, hm⟩ := h
  cases dv with
  | nullV => cases hm
  | textV ds =>
      cases tv with
      | nullV => cases hm
      | textV ts =>
          injection hm with hm
          rw [← hm]
          exact ⟨rfl, rfl⟩

/-- C9: for every record kept during parsing, the stored payload string is
the deterministic compact re-serialization of the decoded object (`dumps`
with the keys in encounter order), the entry row offered to the insert
carries exactly that string, and `_to_json` on any row holding that string
reproduces exactly the decoded source object — no field added, derived or
lost. -/
theorem export_round_trip (gz : List Nat → GzipResult)
    (zp : List Nat → ZipResult) (utf8 : List Nat → Option String)
    (validate : Json → Bool) (data : List Nat)
    (entries : List ParsedEntry) (pe : ParsedEntry)
    (hok : parse_log_file gz zp utf8 validate data = .ok entries)
    (hpe : pe ∈ entries) :
    pe.raw_json = dumps pe.entry ∧
    (∀ (ws : String) (row : EntryRow),
      entryAction ws pe = .ok (some row) → row.raw_json = pe.raw_json) ∧
    (∀ (fallback : EntryRow → Json) (r : EntryRow),
      r.raw_json = pe.raw_json → _to_json fallback [r] = [pe.entry]) := by
  have h := parse_log_file_roundtrip gz zp utf8 validate data entries hok
    pe hpe
  refine ⟨h.1, ?_, ?_⟩
  · intro ws row hea
    unfold entryAction at hea
    rw [h.2] at hea
    cases hj : pe.entry with
    | obj fs =>
        rw [hj] at hea
        dsimp only at hea
        injection hea with hea
        exact (mkEntryRow_fields _ _ _ _ _ hea).2
    | null => rw [hj] at hea; cases hea
    | bool b => rw [hj] at hea; cases hea
    | num n => rw [hj] at hea; cases hea
    | str s => rw [hj] at hea; cases hea
    | arr xs => rw [hj] at hea; cases hea
  · intro fallback r hr
    unfold _to_json
    rw [List.map_singleton, hr, h.2]

theorem export_round_trip_witness :
    (⟨Json.obj [], dumps (Json.obj [])⟩ : ParsedEntry).raw_json =
      dumps (⟨Json.obj [], dumps (Json.obj [])⟩ : ParsedEntry).entry ∧
    (∀ (ws : String) (row : EntryRow),
      entryAction ws ⟨Json.obj [], dumps (Json.obj [])⟩ = .ok (some row) →
      row.raw_json = (⟨Json.obj [], dumps (Json.obj [])⟩ :
        ParsedEntry).raw_json) ∧
    (∀ (fallback : EntryRow → Json) (r : EntryRow),
      r.raw_json = (⟨Json.obj [], dumps (Json.obj [])⟩ :
        ParsedEntry).raw_json →
      _to_json fallback [r] = [(⟨Json.obj [], dumps (Json.obj [])⟩ :
        ParsedEntry).entry]) :=
  export_round_trip (fun _ => .ok "\x7b\x7d") (fun _ => .fail)
    (fun _ => none) (fun _ => true) [0]
    [⟨Json.obj [], dumps (Json.obj [])⟩] ⟨Json.obj [], dumps (Json.obj [])⟩
    (by simp [parse_log_file, decompress, looksLikeJson, parse_ndjson,
      ndjsonLines, pySplitlines, pySplitlinesAux, pyStrip, isPyWs,
      jsonLoads, parseValue, parseMembers, skipWs, isJsonWs])
    (List.mem_singleton.mpr rfl)

end UnqorkAuditLogs
